import Mathlib

/-
  Verification of the ingestion-and-retrieval pipeline of the e-book
  assistant backend.

  Shallow embedding conventions:
  * Python strings are modelled as `List Char`; `str.strip()` is `pyStrip`
    (ASCII whitespace, matching `Char.isWhitespace`).
  * Python floats that only carry threshold comparisons (similarity
    distances, confidences) are modelled as exact rationals.
  * External capabilities (OCR, embedding, chat completion, the vector
    store and the relational store) are opaque parameters; the model
    records the calls the code makes to them.
  * `CHUNK_SIZE` and `CHUNK_OVERLAP` come from configuration
    (environment variables), so the chunker is parameterised by them.
-/

set_option maxRecDepth 8192

/-- Model of Python str.strip: drop leading and trailing whitespace. -/
def pyStrip (s : List Char) : List Char :=
  (((s.dropWhile Char.isWhitespace).reverse).dropWhile Char.isWhitespace).reverse

/-- Helper for pySplit: accumulates the current (reversed) token. -/
def splitWsAux : List Char → List Char → List (List Char)
  | [], acc => if acc.isEmpty then [] else [acc.reverse]
  | c :: rest, acc =>
    if c.isWhitespace then
      if acc.isEmpty then splitWsAux rest [] else acc.reverse :: splitWsAux rest []
    else splitWsAux rest (c :: acc)

/-- Model of Python str.split() with no arguments: whitespace-run separated tokens. -/
def splitWs (s : List Char) : List (List Char) := splitWsAux s []

/-- Model of the regex `[a-zA-Z]\x7b3,\x7d`: some run of three letters occurs. -/
def letterRun3 : List Char → Bool
  | a :: b :: c :: rest => (a.isAlpha && b.isAlpha && c.isAlpha) || letterRun3 (b :: c :: rest)
  | _ => false

/-- The common stop-words of the readable-pattern regex in is_text_meaningful. -/
def stopWords : List (List Char) :=
  (["the", "and", "or", "but", "in", "on", "at", "to", "for", "of", "with", "by"]).map
    (fun w => w.toList)

/-- Python regex word character (ASCII restriction of \w). -/
def isWordChar (c : Char) : Bool := c.isAlphanum || c == '_'

/-- The case-insensitive word w matches s at position i with word boundaries
on both sides (the stop-words consist of letters, so the regex word boundary
reduces to the neighbour not being a word character). -/
def wordAt (s w : List Char) (i : ℕ) : Bool :=
  (((s.drop i).take w.length).map Char.toLower == w)
    && (i == 0 || !(isWordChar (s.getD (i - 1) ' ')))
    && !(isWordChar (s.getD (i + w.length) ' '))

/-- Model of the stop-word regex search (IGNORECASE). -/
def containsStopWord (s : List Char) : Bool :=
  (List.range s.length).any (fun i => stopWords.any (fun w => wordAt s w i))

/-- Model of the regex `[.!?]`: sentence-ending punctuation occurs. -/
def hasSentencePunct (s : List Char) : Bool := s.any (fun c => c == '.' || c == '!' || c == '?')

/-- Model of the regex `\d+` (ASCII digits). -/
def hasDigitChar (s : List Char) : Bool := s.any Char.isDigit

/-- Number of the four readable patterns of is_text_meaningful that match. -/
def patternCount (s : List Char) : ℕ :=
  (if letterRun3 s then 1 else 0) + (if containsStopWord s then 1 else 0)
    + (if hasSentencePunct s then 1 else 0) + (if hasDigitChar s then 1 else 0)

/-- Number of alphabetic characters (Python c.isalpha, ASCII restriction). -/
def alphaCount (s : List Char) : ℕ := s.countP Char.isAlpha

/-- Model of app.pdf_processor.is_text_meaningful. The source first rejects
empty / whitespace-only text, strips the text, then applies the length,
token-count, pattern and alpha-ratio checks to the stripped text. The float
comparison alpha_ratio < 0.4 is modelled exactly:
alpha / total < 2 / 5 iff 5 * alpha < 2 * total. -/
def is_text_meaningful (s : List Char) : Bool :=
  if s.isEmpty || (pyStrip s).isEmpty then false
  else if (pyStrip s).length < 50 then false
  else if (splitWs (pyStrip s)).length < 5 then false
  else if patternCount (pyStrip s) < 2 then false
  else if 5 * alphaCount (pyStrip s) < 2 * (pyStrip s).length then false
  else true

/-- The window loop of app.chunker.chunk_text: from a start position below n,
the source computes e = min (start + S) n, emits the window (start, e), stops
once e = n (the window reaches the text end), else advances the start by
S - O. Here e = n exactly when n <= start + S, and otherwise e = start + S,
so the two branches write those values directly. The loop is given fuel n:
when O < S the start strictly increases each step, so fuel n from start 0 is
never exhausted (for O >= S the Python loop does not terminate). -/
def chunkLoop (S O n : ℕ) : ℕ → ℕ → List (ℕ × ℕ)
  | 0, _ => []
  | fuel + 1, start =>
    if start < n then
      if n ≤ start + S then [(start, n)]
      else (start, start + S) :: chunkLoop S O n fuel (start + (S - O))
    else []

/-- All windows the chunker generates over a text of length n. -/
def chunkWindows (S O n : ℕ) : List (ℕ × ℕ) := chunkLoop S O n n 0

/-- The substring text[w.1 : w.2]. -/
def sliceOf (t : List Char) (w : ℕ × ℕ) : List Char := (t.drop w.1).take (w.2 - w.1)

/-- Model of app.chunker.chunk_text: strip the text, slide the window loop
over it, and keep only the chunks that are non-empty after trimming
whitespace. S and O stand for the configured CHUNK_SIZE and CHUNK_OVERLAP. -/
def chunk_text (S O : ℕ) (text : List Char) : List (List Char) :=
  let t := pyStrip text
  ((chunkWindows S O t.length).map (sliceOf t)).filter (fun c => !(pyStrip c).isEmpty)

/-- The windows whose chunks survive the whitespace filter (the original
index ranges of the returned chunks). -/
def keptWindows (S O : ℕ) (text : List Char) : List (ℕ × ℕ) :=
  let t := pyStrip text
  (chunkWindows S O t.length).filter (fun w => !(pyStrip (sliceOf t w)).isEmpty)

/-- The window list ws covers every index of [0, n) with no gaps. -/
def coversRange (ws : List (ℕ × ℕ)) (n : ℕ) : Prop :=
  ∀ x < n, ∃ w ∈ ws, w.1 ≤ x ∧ x < w.2

instance (ws : List (ℕ × ℕ)) (n : ℕ) : Decidable (coversRange ws n) := by
  unfold coversRange; infer_instance

/-- Window formula: the i-th window the loop emits from position start is
(start + i * (S - O), min (start + i * (S - O) + S) n). -/
theorem chunkLoop_get? (S O n : ℕ) :
    ∀ (fuel start i : ℕ), i < (chunkLoop S O n fuel start).length →
      (chunkLoop S O n fuel start).get? i =
        some (start + i * (S - O), min (start + i * (S - O) + S) n) := by
  intro fuel
  induction fuel with
  | zero => intro start i hi; simp [chunkLoop] at hi
  | succ fuel ih =>
    intro start i hi
    by_cases h : start < n
    · by_cases he : n ≤ start + S
      · simp only [chunkLoop, if_pos h, if_pos he] at hi ⊢
        match i with
        | 0 =>
          simp only [List.get?_cons_zero, Nat.zero_mul, Nat.add_zero]
          rw [Nat.min_eq_right he]
        | j + 1 => simp at hi
      · have hSn : start + S < n := Nat.lt_of_not_le he
        simp only [chunkLoop, if_pos h, if_neg he] at hi ⊢
        match i with
        | 0 =>
          simp only [List.get?_cons_zero, Nat.zero_mul, Nat.add_zero]
          rw [Nat.min_eq_left (Nat.le_of_lt hSn)]
        | j + 1 =>
          simp only [List.get?_cons_succ]
          rw [ih]
          · have harith : start + (S - O) + j * (S - O) = start + (j + 1) * (S - O) := by ring
            rw [harith]
          · simpa using hi
    · simp [chunkLoop, if_neg h] at hi

/-- Coverage invariant: with enough fuel, the loop from start covers every
index of [start, n). -/
theorem chunkLoop_covers (S O n : ℕ) (hSO : O < S) :
    ∀ (fuel start x : ℕ), n ≤ start + fuel → start ≤ x → x < n →
      ∃ w ∈ chunkLoop S O n fuel start, w.1 ≤ x ∧ x < w.2 := by
  intro fuel
  induction fuel with
  | zero => intro start x hf hs hx; omega
  | succ fuel ih =>
    intro start x hf hs hx
    have h : start < n := Nat.lt_of_le_of_lt hs hx
    by_cases he : n ≤ start + S
    · refine ⟨(start, n), ?_, hs, hx⟩
      simp [chunkLoop, if_pos h, if_pos he]
    · have hSn : start + S < n := Nat.lt_of_not_le he
      by_cases hxe : x < start + S
      · refine ⟨(start, start + S), ?_, hs, hxe⟩
        simp [chunkLoop, if_pos h, if_neg he]
      · obtain ⟨w, hw, h1, h2⟩ := ih (start + (S - O)) x (by omega) (by omega) hx
        refine ⟨w, ?_, h1, h2⟩
        simp only [chunkLoop, if_pos h, if_neg he, List.mem_cons]
        exact Or.inr hw

/-- Every window other than the last one is full-size: its end is its start
plus S (the loop stops as soon as a window is clipped by the text end). -/
theorem chunkLoop_nonfinal (S O n : ℕ) :
    ∀ (fuel start i : ℕ), i + 1 < (chunkLoop S O n fuel start).length →
      ∃ s, (chunkLoop S O n fuel start).get? i = some (s, s + S) := by
  intro fuel
  induction fuel with
  | zero => intro start i hi; simp [chunkLoop] at hi
  | succ fuel ih =>
    intro start i hi
    by_cases h : start < n
    · by_cases he : n ≤ start + S
      · simp [chunkLoop, if_pos h, if_pos he] at hi
      · simp only [chunkLoop, if_pos h, if_neg he] at hi ⊢
        match i with
        | 0 => exact ⟨start, by simp⟩
        | j + 1 =>
          simp only [List.get?_cons_succ]
          exact ih (start + (S - O)) j (by simpa using hi)
    · simp [chunkLoop, if_neg h] at hi

/-- The last window emitted by the loop ends exactly at the text end n. -/
theorem chunkLoop_last (S O n : ℕ) (hSO : O < S) :
    ∀ (fuel start : ℕ) (d : ℕ × ℕ), n ≤ start + fuel → start < n →
      ((chunkLoop S O n fuel start).getLastD d).2 = n := by
  intro fuel
  induction fuel with
  | zero => intro start d hf hs; omega
  | succ fuel ih =>
    intro start d hf hs
    by_cases he : n ≤ start + S
    · simp [chunkLoop, if_pos hs, if_pos he]
    · have hSn : start + S < n := Nat.lt_of_not_le he
      simp only [chunkLoop, if_pos hs, if_neg he, List.getLastD_cons]
      exact ih (start + (S - O)) (start, start + S) (by omega) (by omega)

/-- Amended window specification of chunk_text, stated over the stripped
text (writing T for the stripped input and n for its length): window i
starts at i * (S - O) and covers [start, start + S) clipped to n; the
window family covers [0, n) with no gaps; every window after the first
begins exactly O characters before the previous window end; the last
window ends at n; and the returned chunks are the window substrings,
discarding the ones that are empty after trimming whitespace. -/
def ChunkWindowSpec (S O : ℕ) (text : List Char) : Prop :=
  (∀ i, i < (chunkWindows S O (pyStrip text).length).length →
      (chunkWindows S O (pyStrip text).length).get? i =
        some (i * (S - O), min (i * (S - O) + S) (pyStrip text).length))
  ∧ coversRange (chunkWindows S O (pyStrip text).length) (pyStrip text).length
  ∧ (∀ i w w', (chunkWindows S O (pyStrip text).length).get? i = some w →
      (chunkWindows S O (pyStrip text).length).get? (i + 1) = some w' →
      w'.1 + O = w.2)
  ∧ (0 < (pyStrip text).length →
      ((chunkWindows S O (pyStrip text).length).getLastD (0, 0)).2 = (pyStrip text).length)
  ∧ chunk_text S O text =
      ((chunkWindows S O (pyStrip text).length).map (sliceOf (pyStrip text))).filter
        (fun c => !(pyStrip c).isEmpty)

/-- C1 (amended): for overlap O < size S the chunker windows satisfy the
sliding-window specification over the STRIPPED text: the window formula,
gapless coverage of [0, len (strip T)), the exact-O overlap between
consecutive windows, termination at the text end, and the whitespace
discard rule for the returned chunks. The claim as frozen (coverage of
[0, len T) by the output windows) fails on the code because chunk_text
first strips T and afterwards discards whitespace-only windows, which can
leave gaps between the returned chunks; see the counterexample. -/
theorem chunk_text_window_spec (S O : ℕ) (hSO : O < S) (text : List Char) :
    ChunkWindowSpec S O text := by
  refine ⟨?_, ?_, ?_, ?_, rfl⟩
  · intro i hi
    have h := chunkLoop_get? S O (pyStrip text).length (pyStrip text).length 0 i hi
    simpa [chunkWindows] using h
  · intro x hx
    exact chunkLoop_covers S O (pyStrip text).length hSO (pyStrip text).length 0 x
      (by omega) (Nat.zero_le x) hx
  · intro i w w' hw hw'
    obtain ⟨hlt', -⟩ := List.get?_eq_some.mp hw'
    have hlt : i < (chunkWindows S O (pyStrip text).length).length := by omega
    obtain ⟨s, hs⟩ := chunkLoop_nonfinal S O (pyStrip text).length (pyStrip text).length 0 i hlt'
    have hwf := chunkLoop_get? S O (pyStrip text).length (pyStrip text).length 0 i hlt
    have hwf' := chunkLoop_get? S O (pyStrip text).length (pyStrip text).length 0 (i + 1) hlt'
    rw [chunkWindows] at hw hw'
    have hws : w = (s, s + S) := Option.some.inj (hw.symm.trans hs)
    have hs2 : s = 0 + i * (S - O) := by
      have := hs.symm.trans hwf
      have hp := Option.some.inj this
      exact congrArg Prod.fst hp
    have hw'1 : w'.1 = 0 + (i + 1) * (S - O) := by
      have := hw'.symm.trans hwf'
      have hp := Option.some.inj this
      exact congrArg Prod.fst hp
    have hmul : (i + 1) * (S - O) = i * (S - O) + (S - O) := Nat.succ_mul i (S - O)
    rw [hws]
    simp only [hw'1, hs2]
    omega
  · intro hn
    exact chunkLoop_last S O (pyStrip text).length hSO (pyStrip text).length 0 (0, 0)
      (by omega) hn

/-- Concrete input refuting the frozen form of C1: one leading space and an
interior whitespace run (length 9, stripped length 8). -/
def exC1 : List Char := (" ab    cd").toList

/-- C1 counterexample: with S = 3, O = 1 on the text above, neither the
surviving output windows nor even the full window family cover
[0, len T) with no gaps, although the chunker does return chunks: the
windows range over the stripped text (length 8, not 9), and the window
(2, 5) is whitespace-only and is discarded, so the surviving windows skip
index 3. -/
theorem chunk_text_coverage_cx :
    ¬ coversRange (keptWindows 3 1 exC1) exC1.length
      ∧ ¬ coversRange (chunkWindows 3 1 (pyStrip exC1).length) exC1.length
      ∧ chunk_text 3 1 exC1 ≠ [] := by decide

/-- Witness for the amended C1 theorem at S = 3, O = 1 on the same text. -/
theorem chunk_text_window_spec_witness : 1 < 3 ∧ ChunkWindowSpec 3 1 exC1 :=
  ⟨by decide, chunk_text_window_spec 3 1 (by decide) exC1⟩

/-- Stripping never lengthens a string. -/
theorem pyStrip_length_le (s : List Char) : (pyStrip s).length ≤ s.length := by
  unfold pyStrip
  calc ((((s.dropWhile Char.isWhitespace).reverse).dropWhile Char.isWhitespace).reverse).length
      = (((s.dropWhile Char.isWhitespace).reverse).dropWhile Char.isWhitespace).length := by
        rw [List.length_reverse]
    _ ≤ ((s.dropWhile Char.isWhitespace).reverse).length :=
        (List.dropWhile_suffix _).length_le
    _ = (s.dropWhile Char.isWhitespace).length := by rw [List.length_reverse]
    _ ≤ s.length := (List.dropWhile_suffix _).length_le

/-- Characterisation of is_text_meaningful: true iff the stripped text has
length at least 50, at least 5 whitespace tokens, at least 2 of the 4
readable patterns, and alphabetic ratio at least 0.40. -/
theorem is_text_meaningful_iff (s : List Char) : is_text_meaningful s = true ↔
    (50 ≤ (pyStrip s).length ∧ 5 ≤ (splitWs (pyStrip s)).length ∧
      2 ≤ patternCount (pyStrip s) ∧
      2 * (pyStrip s).length ≤ 5 * alphaCount (pyStrip s)) := by
  constructor
  · intro h
    simp only [is_text_meaningful] at h
    split_ifs at h with h0 h1 h2 h3 h4
    exact ⟨by omega, by omega, by omega, by omega⟩
  · rintro ⟨hl, hw, hp, ha⟩
    have hne : ¬(s.isEmpty || (pyStrip s).isEmpty) = true := by
      intro hor
      rcases Bool.or_eq_true_iff.mp hor with h | h
      · have hs0 : s = [] := List.isEmpty_iff.mp h
        subst hs0
        simp [pyStrip] at hl
      · have h0 : pyStrip s = [] := List.isEmpty_iff.mp h
        rw [h0] at hl
        simp at hl
    simp only [is_text_meaningful, if_neg hne]
    rw [if_neg (by omega), if_neg (by omega), if_neg (by omega), if_neg (by omega)]

/-- C3 (amended): the classifier measures every check on the STRIPPED text.
Part 1: any input of length below 50 is never classified meaningful (true as
frozen, because stripping never lengthens). Part 2: if the stripped text has
length at least 50, at least 5 tokens, matches all four readable patterns
and has alphabetic ratio at least 0.40, the classifier returns true. Part 3:
in general the classifier returns true iff the stripped text has length at
least 50, at least 5 tokens, at least 2 of the 4 patterns, and alphabetic
ratio at least 0.40. The frozen claim measured the conditions on the input
as given, which fails when trailing or leading whitespace is stripped; see
the counterexample. -/
theorem is_text_meaningful_spec :
    (∀ s : List Char, s.length < 50 → is_text_meaningful s = false)
    ∧ (∀ s : List Char,
        50 ≤ (pyStrip s).length → 5 ≤ (splitWs (pyStrip s)).length →
        letterRun3 (pyStrip s) = true → containsStopWord (pyStrip s) = true →
        hasSentencePunct (pyStrip s) = true → hasDigitChar (pyStrip s) = true →
        2 * (pyStrip s).length ≤ 5 * alphaCount (pyStrip s) →
        is_text_meaningful s = true)
    ∧ (∀ s : List Char, is_text_meaningful s = true ↔
        (50 ≤ (pyStrip s).length ∧ 5 ≤ (splitWs (pyStrip s)).length ∧
          2 ≤ patternCount (pyStrip s) ∧
          2 * (pyStrip s).length ≤ 5 * alphaCount (pyStrip s))) := by
  refine ⟨?_, ?_, is_text_meaningful_iff⟩
  · intro s hs
    have hle := pyStrip_length_le s
    cases hb : is_text_meaningful s
    · rfl
    · have := (is_text_meaningful_iff s).mp hb
      omega
  · intro s h50 htok hl hsw hsp hd hratio
    refine (is_text_meaningful_iff s).mpr ⟨h50, htok, ?_, hratio⟩
    simp [patternCount, hl, hsw, hsp, hd]

/-- Length-50 input whose stripped form has length 49: all four readable
patterns match, the token count and the alphabetic ratio of the input as
given are fine, yet the classifier rejects it because it strips the text
before measuring the length. -/
def exC3 : List Char := ("the cat ran 12 times. it was a good day for every ").toList

/-- C3 counterexample: exC3 has length 50, at least 5 tokens, matches all
four readable patterns, and has alphabetic ratio at least 0.40, but
is_text_meaningful still returns false (stripped length is 49 < 50),
refuting the frozen claim that such a text is always classified
meaningful. -/
theorem is_text_meaningful_cx :
    exC3.length = 50 ∧ 5 ≤ (splitWs exC3).length ∧ patternCount exC3 = 4
      ∧ 2 * exC3.length ≤ 5 * alphaCount exC3
      ∧ is_text_meaningful exC3 = false := by decide

/-- Input for part 1 of the C3 witness. -/
def exShort : List Char := ("hi the 12.").toList

/-- Input for part 2 of the C3 witness (stripped length 53). -/
def exGood : List Char := ("the cat ran 12 times. it was a good day for every one").toList

/-- Witness for the amended C3 theorem: part 1 at a short input, part 2 at
a passing input. -/
theorem is_text_meaningful_spec_witness :
    (exShort.length < 50 ∧ is_text_meaningful exShort = false)
      ∧ is_text_meaningful exGood = true :=
  ⟨⟨by decide, is_text_meaningful_spec.1 exShort (by decide)⟩,
    is_text_meaningful_spec.2.1 exGood (by decide) (by decide) (by decide) (by decide)
      (by decide) (by decide) (by decide)⟩

/-- Document lifecycle status. -/
inductive DocStatus
  | processing
  | processed
  | failed
deriving DecidableEq, Repr

/-- The Document row fields the ingestion pipeline touches. -/
structure DocRow where
  id : ℕ
  owner : ℕ
  fileHash : ℕ
  status : DocStatus
  chunkCount : ℕ
deriving DecidableEq, Repr

/-- Relational state seen by upload_pdf: stored rows plus the queue of
background-processing tasks (document ids). -/
structure UploadState where
  rows : List DocRow
  tasks : List ℕ
  nextId : ℕ
deriving DecidableEq, Repr

/-- Upload rejections modelled for claim C5. -/
inductive UploadError
  | emptyFile
  | duplicate
deriving DecidableEq, Repr

/-- Model of app.routes_docs.upload_pdf. The route reads the bytes, rejects
empty files, computes the SHA-256 hash (modelled by the parameter hashFn),
rejects the upload when a row with the same (owner, hash) already exists,
and only then creates the Document row with status processing and
chunk_count 0 and queues the background task. PDF validation and the blob
upload are assumed to succeed: both also happen before any row is created,
so they do not affect the claim. -/
def upload_pdf (hashFn : List ℕ → ℕ) (st : UploadState) (owner : ℕ) (fileBytes : List ℕ) :
    (Except UploadError ℕ) × UploadState :=
  if fileBytes.isEmpty then (.error .emptyFile, st)
  else if st.rows.any (fun d => d.owner == owner && d.fileHash == hashFn fileBytes) then
    (.error .duplicate, st)
  else
    (.ok st.nextId,
      ⟨st.rows ++ [⟨st.nextId, owner, hashFn fileBytes, .processing, 0⟩],
        st.tasks ++ [st.nextId], st.nextId + 1⟩)

/-- No two stored rows share the (owner, content hash) pair. -/
def uniqueOwnerHash (rows : List DocRow) : Prop :=
  rows.Pairwise (fun a b => ¬(a.owner = b.owner ∧ a.fileHash = b.fileHash))

instance (rows : List DocRow) : Decidable (uniqueOwnerHash rows) := by
  unfold uniqueOwnerHash; infer_instance

/-- Duplicate test of upload_pdf as a Prop. -/
theorem upload_any_iff (rows : List DocRow) (owner h : ℕ) :
    rows.any (fun d => d.owner == owner && d.fileHash == h) = true ↔
      ∃ d ∈ rows, d.owner = owner ∧ d.fileHash = h := by
  simp [List.any_eq_true]

/-- Evaluation of upload_pdf in the duplicate case. -/
theorem upload_pdf_eq_dup (hashFn : List ℕ → ℕ) (st : UploadState) (owner : ℕ)
    (fileBytes : List ℕ) (hbe : fileBytes.isEmpty = false)
    (hany : st.rows.any (fun d => d.owner == owner && d.fileHash == hashFn fileBytes) = true) :
    upload_pdf hashFn st owner fileBytes = (.error .duplicate, st) := by
  unfold upload_pdf
  rw [if_neg (by simp [hbe]), if_pos hany]

/-- Evaluation of upload_pdf in the fresh-content case. -/
theorem upload_pdf_eq_ok (hashFn : List ℕ → ℕ) (st : UploadState) (owner : ℕ)
    (fileBytes : List ℕ) (hbe : fileBytes.isEmpty = false)
    (hany : st.rows.any (fun d => d.owner == owner && d.fileHash == hashFn fileBytes) = false) :
    upload_pdf hashFn st owner fileBytes =
      (.ok st.nextId,
        ⟨st.rows ++ [⟨st.nextId, owner, hashFn fileBytes, .processing, 0⟩],
          st.tasks ++ [st.nextId], st.nextId + 1⟩) := by
  unfold upload_pdf
  rw [if_neg (by simp [hbe]), if_neg (by simp [hany])]

/-- C5: uploading bytes whose hash already exists for the same owner is
rejected with the duplicate error and leaves the state unchanged (no row,
no queued task); a first upload succeeds and an identical re-upload by the
same owner is then rejected; identical bytes under two different owners
succeed both times; and upload_pdf preserves uniqueness of
(owner, content hash) across stored rows. -/
theorem upload_pdf_dedup (hashFn : List ℕ → ℕ) (st : UploadState) (o1 o2 : ℕ)
    (fileBytes : List ℕ) (hne : fileBytes ≠ []) :
    ((∃ d ∈ st.rows, d.owner = o1 ∧ d.fileHash = hashFn fileBytes) →
      (upload_pdf hashFn st o1 fileBytes).1 = .error .duplicate
        ∧ (upload_pdf hashFn st o1 fileBytes).2 = st)
    ∧ ((¬ ∃ d ∈ st.rows, d.owner = o1 ∧ d.fileHash = hashFn fileBytes) →
      (upload_pdf hashFn st o1 fileBytes).1 = .ok st.nextId
        ∧ (upload_pdf hashFn (upload_pdf hashFn st o1 fileBytes).2 o1 fileBytes).1
            = .error .duplicate)
    ∧ (o1 ≠ o2 → (¬ ∃ d ∈ st.rows, d.fileHash = hashFn fileBytes) →
      (upload_pdf hashFn st o1 fileBytes).1 = .ok st.nextId
        ∧ (upload_pdf hashFn (upload_pdf hashFn st o1 fileBytes).2 o2 fileBytes).1
            = .ok (st.nextId + 1))
    ∧ (uniqueOwnerHash st.rows → uniqueOwnerHash (upload_pdf hashFn st o1 fileBytes).2.rows) := by
  have hbe : fileBytes.isEmpty = false := by
    cases fileBytes with
    | nil => exact absurd rfl hne
    | cons a l => rfl
  refine ⟨?_, ?_, ?_, ?_⟩
  · intro hdup
    have hany : st.rows.any (fun d => d.owner == o1 && d.fileHash == hashFn fileBytes) = true :=
      (upload_any_iff st.rows o1 (hashFn fileBytes)).mpr hdup
    rw [upload_pdf_eq_dup hashFn st o1 fileBytes hbe hany]
    exact ⟨rfl, rfl⟩
  · intro hdup
    have hany : st.rows.any (fun d => d.owner == o1 && d.fileHash == hashFn fileBytes) = false := by
      rw [Bool.eq_false_iff]
      intro hcon
      exact hdup ((upload_any_iff st.rows o1 (hashFn fileBytes)).mp hcon)
    rw [upload_pdf_eq_ok hashFn st o1 fileBytes hbe hany]
    refine ⟨rfl, ?_⟩
    have hany2 : (st.rows ++
        [(⟨st.nextId, o1, hashFn fileBytes, .processing, 0⟩ : DocRow)]).any
          (fun d => d.owner == o1 && d.fileHash == hashFn fileBytes) = true := by
      rw [List.any_append]
      simp
    rw [upload_pdf_eq_dup hashFn _ o1 fileBytes hbe hany2]
  · intro hoo hdup
    have hany : ∀ o : ℕ,
        st.rows.any (fun d => d.owner == o && d.fileHash == hashFn fileBytes) = false := by
      intro o
      rw [Bool.eq_false_iff]
      intro hcon
      obtain ⟨d, hd, -, hh⟩ := (upload_any_iff st.rows o (hashFn fileBytes)).mp hcon
      exact hdup ⟨d, hd, hh⟩
    rw [upload_pdf_eq_ok hashFn st o1 fileBytes hbe (hany o1)]
    refine ⟨rfl, ?_⟩
    have hany3 : (st.rows ++
        [(⟨st.nextId, o1, hashFn fileBytes, .processing, 0⟩ : DocRow)]).any
          (fun d => d.owner == o2 && d.fileHash == hashFn fileBytes) = false := by
      rw [List.any_append, hany o2]
      simp
      omega
    rw [upload_pdf_eq_ok hashFn _ o2 fileBytes hbe hany3]
  · intro huniq
    by_cases hany : st.rows.any (fun d => d.owner == o1 && d.fileHash == hashFn fileBytes) = true
    · rw [upload_pdf_eq_dup hashFn st o1 fileBytes hbe hany]
      exact huniq
    · rw [Bool.not_eq_true] at hany
      rw [upload_pdf_eq_ok hashFn st o1 fileBytes hbe hany]
      unfold uniqueOwnerHash
      rw [List.pairwise_append]
      refine ⟨huniq, by simp, ?_⟩
      intro a ha b hb
      have hbeq : b = ⟨st.nextId, o1, hashFn fileBytes, .processing, 0⟩ := by
        simpa using hb
      subst hbeq
      rintro ⟨how, hh⟩
      have hc : st.rows.any (fun d => d.owner == o1 && d.fileHash == hashFn fileBytes) = true := by
        rw [upload_any_iff]
        exact ⟨a, ha, how, hh⟩
      rw [hc] at hany
      exact absurd hany (by simp)

/-- Concrete hash function for the C5 witness. -/
def exHash : List ℕ → ℕ := fun b => b.sum

/-- Empty initial state for the C5 witness. -/
def exState : UploadState := ⟨[], [], 0⟩

/-- Witness for C5: with an empty store, owner 1 uploads bytes [7]
successfully, a re-upload by owner 1 is rejected as duplicate, owner 2
uploads the identical bytes successfully, and uniqueness is preserved. -/
theorem upload_pdf_dedup_witness :
    ([7] ≠ ([] : List ℕ))
      ∧ ((upload_pdf exHash exState 1 [7]).1 = .ok 0
        ∧ (upload_pdf exHash (upload_pdf exHash exState 1 [7]).2 1 [7]).1
            = .error .duplicate)
      ∧ ((upload_pdf exHash exState 1 [7]).1 = .ok 0
        ∧ (upload_pdf exHash (upload_pdf exHash exState 1 [7]).2 2 [7]).1 = .ok 1) :=
  ⟨by decide,
    (upload_pdf_dedup exHash exState 1 2 [7] (by decide)).2.1 (by decide),
    (upload_pdf_dedup exHash exState 1 2 [7] (by decide)).2.2.1 (by decide) (by decide)⟩

/-- An alphabetic character is not whitespace. -/
theorem alpha_not_ws (c : Char) (h : c.isAlpha = true) : c.isWhitespace = false := by
  by_contra hc
  rw [Bool.not_eq_false] at hc
  simp only [Char.isWhitespace] at hc
  rcases Bool.or_eq_true_iff.mp hc with hc | hc
  · rcases Bool.or_eq_true_iff.mp hc with hc | hc
    · rcases Bool.or_eq_true_iff.mp hc with hc | hc <;>
        · have := (decide_eq_true_iff).mp hc
          subst this
          exact absurd h (by decide)
    · have := (decide_eq_true_iff).mp hc
      subst this
      exact absurd h (by decide)
  · have := (decide_eq_true_iff).mp hc
    subst this
    exact absurd h (by decide)

/-- If stripping kills a string, every character of it is whitespace. -/
theorem pyStrip_eq_nil (l : List Char) (h : pyStrip l = []) :
    ∀ c ∈ l, c.isWhitespace = true := by
  unfold pyStrip at h
  rw [List.reverse_eq_nil_iff, List.dropWhile_eq_nil_iff] at h
  have hdrop : ∀ c ∈ l.dropWhile Char.isWhitespace, c.isWhitespace = true := by
    intro c hc
    exact h c (by simpa using hc)
  intro c hc
  rw [← List.takeWhile_append_dropWhile (p := Char.isWhitespace) (l := l)] at hc
  rcases List.mem_append.mp hc with hc | hc
  · exact List.mem_takeWhile_imp hc
  · exact hdrop c hc

/-- Meaningful text survives a second strip: its stripped form contains an
alphabetic character, so stripping it again cannot give the empty string. -/
theorem meaningful_strip_ne (t : List Char) (h : is_text_meaningful t = true) :
    pyStrip (pyStrip t) ≠ [] := by
  obtain ⟨hlen, -, -, hratio⟩ := (is_text_meaningful_iff t).mp h
  have halpha : 0 < alphaCount (pyStrip t) := by
    unfold alphaCount
    by_contra hz
    push_neg at hz
    interval_cases halpha : (pyStrip t).countP Char.isAlpha
    unfold alphaCount at hratio
    omega
  obtain ⟨c, hc, hca⟩ := List.countP_pos_iff.mp halpha
  intro hnil
  have := pyStrip_eq_nil (pyStrip t) hnil c hc
  rw [alpha_not_ws c hca] at this
  exact absurd this (by simp)

/-- Source tag of a page result. -/
inductive PageSource
  | text
  | needsOcr
  | azure
deriving DecidableEq, Repr

/-- One entry of the list returned by extract_pages_text. -/
structure PageResult where
  page : ℕ
  text : List Char
  source : PageSource
  confidence : ℚ
deriving DecidableEq, Repr

instance : Inhabited PageResult := ⟨⟨0, [], .text, 0⟩⟩

/-- Outcome of one call of the OCR capability on a page image: the text and
average confidence of ocr_with_azure_for_page, or an exception (capability
unreachable at call time). -/
inductive OcrOutcome
  | ok (text : List Char) (conf : ℚ)
  | err
deriving DecidableEq

/-- Python exceptions the model distinguishes. -/
inductive PyErr
  | typeError
  | runtimeError
deriving DecidableEq, Repr

/-- The inputs extract_pages_text depends on: the configured MAX_PDF_PAGES
cap, whether pypdf can open the file, the per-page text-layer contents (a
page whose extract_text raises or returns None contributes the empty
string), the per-page OCR capability, and whether AZURE_DI_ENDPOINT and
AZURE_DI_KEY are configured. Page rendering is assumed to succeed for
pages that exist; the batch size only groups rendering calls and does not
change any per-page result, so batches are not modelled. -/
structure ExtractCfg where
  maxPages : ℕ
  readerOk : Bool
  pdfTexts : List (List Char)
  ocr : ℕ → OcrOutcome
  configured : Bool

/-- Number of pages the extraction loops touch: the pages that exist,
capped by MAX_PDF_PAGES. -/
def extractCap (cfg : ExtractCfg) : ℕ := min cfg.pdfTexts.length cfg.maxPages

/-- Classification of one page by the first (non-OCR) pass: meaningful
pages keep their stripped text with source text and confidence 100; the
rest get empty text, source needs_ocr, confidence 0. -/
def classifyPage (i : ℕ) (t : List Char) : PageResult :=
  if is_text_meaningful t then ⟨i + 1, pyStrip t, .text, 100⟩
  else ⟨i + 1, [], .needsOcr, 0⟩

/-- Result recorded for page i when the OCR capability is invoked: its
stripped text and confidence on success, empty text and confidence 0 when
the call raises; source azure either way. -/
def ocrToPage (ocr : ℕ → OcrOutcome) (i : ℕ) : PageResult :=
  match ocr i with
  | .ok t c => ⟨i + 1, pyStrip t, .azure, c⟩
  | .err => ⟨i + 1, [], .azure, 0⟩

/-- One iteration of the OCR loop of extract_pages_text for page idx: skip
when OCR is not forced and the page already has a non-needs_ocr entry;
otherwise invoke OCR (recording the call) and write the page result in
place, or append it when the page has no entry yet (forced mode). -/
def ocrStep (force : Bool) (ocr : ℕ → OcrOutcome) (st : List PageResult × List ℕ) (idx : ℕ) :
    List PageResult × List ℕ :=
  if force = false ∧ idx < st.1.length ∧ (st.1.getD idx default).source ≠ PageSource.needsOcr
  then st
  else
    ((if idx < st.1.length then st.1.set idx (ocrToPage ocr idx)
      else st.1 ++ [ocrToPage ocr idx]),
      st.2 ++ [idx])

/-- The OCR phase over pages 0..cap-1. Besides the page results it returns
the list of page indices for which the OCR capability was invoked. -/
def ocrPass (force : Bool) (ocr : ℕ → OcrOutcome) (cap : ℕ) (init : List PageResult) :
    List PageResult × List ℕ :=
  (List.range cap).foldl (ocrStep force ocr) (init, [])

/-- First, non-OCR phase of extract_pages_text: empty when OCR is forced or
pypdf cannot open the file, else one classified entry per existing page up
to the cap. -/
def initResults (cfg : ExtractCfg) (force : Bool) : List PageResult :=
  if force || !cfg.readerOk then []
  else (List.range (extractCap cfg)).map (fun i => classifyPage i (cfg.pdfTexts.getD i []))

/-- Model of app.pdf_processor.extract_pages_text. The function raises
RuntimeError upfront when Azure Document Intelligence is not configured.
Otherwise the first pass classifies pages (unless force_ocr or pypdf
failure), and the OCR phase runs iff OCR is forced or some page needs it. -/
def extract_pages_text (cfg : ExtractCfg) (force : Bool) :
    Except PyErr (List PageResult × List ℕ) :=
  if !cfg.configured then .error .runtimeError
  else if force || (initResults cfg force).any (fun p => p.source == PageSource.needsOcr) then
    .ok (ocrPass force cfg.ocr (extractCap cfg) (initResults cfg force))
  else .ok (initResults cfg force, [])

/-- Page results of a call of extract_pages_text (empty on exception). -/
def extractResults (cfg : ExtractCfg) (force : Bool) : List PageResult :=
  match extract_pages_text cfg force with
  | .ok (r, _) => r
  | .error _ => []

/-- Page indices the OCR capability is invoked for during a call of
extract_pages_text (empty on exception). -/
def extractCalls (cfg : ExtractCfg) (force : Bool) : List ℕ :=
  match extract_pages_text cfg force with
  | .ok (_, c) => c
  | .error _ => []

/-- The extraction step shared by process_pdf_background, summarize,
answer_query and generate_interview_questions: run extract_pages_text
without forcing OCR; if no page yields non-empty text, run it once more
with OCR forced. The Bool records whether the forced retry happened. -/
def bgExtractPages (cfg : ExtractCfg) : Except PyErr (List PageResult × Bool) :=
  match extract_pages_text cfg false with
  | .error e => .error e
  | .ok (pages, _) =>
    if pages.all (fun p => p.text.isEmpty || (pyStrip p.text).isEmpty) then
      match extract_pages_text cfg true with
      | .error e => .error e
      | .ok (p2, _) => .ok (p2, true)
    else .ok (pages, false)

/-- Whether ingestion invoked the extractor a second time with OCR forced. -/
def forcedRetry (cfg : ExtractCfg) : Bool :=
  match bgExtractPages cfg with
  | .ok (_, b) => b
  | .error _ => false

/-- Reading every position of a list in order reproduces the list. -/
theorem map_getD_range {α : Type} (l : List α) (d : α) :
    (List.range l.length).map (fun i => l.getD i d) = l := by
  induction l with
  | nil => rfl
  | cons a t ih =>
    rw [List.length_cons, List.range_succ_eq_map, List.map_cons, List.map_map]
    have h0 : (a :: t).getD 0 d = a := List.getD_cons_zero
    rw [h0]
    congr 1

/-- Positional read of a mapped range. -/
theorem getD_map_range {β : Type} (f : ℕ → β) (cap i : ℕ) (hi : i < cap) (d : β) :
    ((List.range cap).map f).getD i d = f i := by
  rw [List.getD_eq_getElem?_getD, List.getElem?_map, List.getElem?_range hi]
  rfl

/-- Invariant of the non-forced OCR loop after processing pages 0..j-1: the
entries of needs_ocr pages below j have been replaced by their OCR result,
everything else is untouched, and OCR has been invoked exactly for the
needs_ocr pages below j. -/
theorem ocrPass_false_inv (ocr : ℕ → OcrOutcome) (init : List PageResult) (cap : ℕ)
    (hlen : init.length = cap) :
    ∀ j, j ≤ cap →
      (List.range j).foldl (ocrStep false ocr) (init, []) =
        ((List.range cap).map (fun i =>
            if i < j ∧ (init.getD i default).source = PageSource.needsOcr
            then ocrToPage ocr i else init.getD i default),
          (List.range j).filter
            (fun i => (init.getD i default).source == PageSource.needsOcr)) := by
  intro j
  induction j with
  | zero =>
    intro _
    simp only [List.range_zero, List.foldl_nil, List.filter_nil]
    have hmap : (List.range cap).map (fun i =>
        if i < 0 ∧ (init.getD i default).source = PageSource.needsOcr
        then ocrToPage ocr i else init.getD i default)
        = (List.range cap).map (fun i => init.getD i default) := by
      refine List.map_congr_left ?_
      intro i _
      rw [if_neg (by omega)]
    rw [hmap, ← hlen, map_getD_range]
  | succ j ih =>
    intro hj1
    have hj : j < cap := by omega
    rw [List.range_succ, List.foldl_append, ih (by omega)]
    simp only [List.foldl_cons, List.foldl_nil]
    unfold ocrStep
    have hlenmap : ((List.range cap).map (fun i =>
        if i < j ∧ (init.getD i default).source = PageSource.needsOcr
        then ocrToPage ocr i else init.getD i default)).length = cap := by
      rw [List.length_map, List.length_range]
    have hatj : ((List.range cap).map (fun i =>
        if i < j ∧ (init.getD i default).source = PageSource.needsOcr
        then ocrToPage ocr i else init.getD i default)).getD j default
          = init.getD j default := by
      rw [getD_map_range _ cap j hj, if_neg (by omega)]
    by_cases hnd : (init.getD j default).source = PageSource.needsOcr
    · rw [if_neg (by
        simp only [hatj]
        intro hcon
        exact hcon.2.2 hnd)]
      simp only
      rw [if_pos (by rw [hlenmap]; exact hj)]
      rw [Prod.mk.injEq]
      constructor
      · refine List.ext_getElem? ?_
        intro n
        rw [List.getElem?_set]
        by_cases hne : j = n
        · subst hne
          rw [if_pos rfl, if_pos (by rw [hlenmap]; exact hj)]
          rw [List.getElem?_map, List.getElem?_range hj, Option.map_some']
          rw [if_pos (⟨by omega, hnd⟩ : j < j + 1 ∧ (init.getD j default).source = PageSource.needsOcr)]
        · rw [if_neg hne]
          by_cases hn : n < cap
          · rw [List.getElem?_map, List.getElem?_range hn,
              List.getElem?_map, List.getElem?_range hn, Option.map_some', Option.map_some']
            congr 1
            by_cases hcase : n < j ∧ (init.getD n default).source = PageSource.needsOcr
            · rw [if_pos hcase, if_pos ⟨by omega, hcase.2⟩]
            · rw [if_neg hcase, if_neg (by
                rintro ⟨hlt, hsrc⟩
                exact hcase ⟨by omega, hsrc⟩)]
          · rw [List.getElem?_map, List.getElem?_map]
            have hr : (List.range cap)[n]? = none := by
              rw [List.getElem?_eq_none]
              rw [List.length_range]
              omega
            rw [hr]
            rfl
      · rw [List.filter_append]
        congr 1
        rw [List.filter_cons]
        rw [if_pos (beq_iff_eq.mpr hnd)]
        rw [List.filter_nil]
    · rw [if_pos (by
        refine ⟨rfl, by rw [hlenmap]; exact hj, ?_⟩
        rw [hatj]
        exact hnd)]
      rw [Prod.mk.injEq]
      constructor
      · refine List.map_congr_left ?_
        intro i hi
        by_cases hcase : i < j ∧ (init.getD i default).source = PageSource.needsOcr
        · rw [if_pos hcase, if_pos ⟨by omega, hcase.2⟩]
        · rw [if_neg hcase, if_neg (by
            rintro ⟨hlt, hsrc⟩
            refine hcase ⟨?_, hsrc⟩
            rcases Nat.lt_succ_iff_lt_or_eq.mp hlt with h | h
            · exact h
            · subst h
              exact absurd hsrc hnd)]
      · rw [List.filter_append]
        have hfj : List.filter (fun i => (init.getD i default).source == PageSource.needsOcr) [j]
            = [] := by
          rw [List.filter_cons]
          rw [if_neg (by intro hc; exact hnd (beq_iff_eq.mp hc))]
          rw [List.filter_nil]
        rw [hfj, List.append_nil]

/-- Closed form of the non-forced OCR pass: needs_ocr pages are replaced by
their OCR result, other pages are untouched, and OCR is invoked exactly for
the needs_ocr pages. -/
theorem ocrPass_false_eq (ocr : ℕ → OcrOutcome) (init : List PageResult) (cap : ℕ)
    (hlen : init.length = cap) :
    ocrPass false ocr cap init =
      ((List.range cap).map (fun i =>
          if (init.getD i default).source = PageSource.needsOcr
          then ocrToPage ocr i else init.getD i default),
        (List.range cap).filter
          (fun i => (init.getD i default).source == PageSource.needsOcr)) := by
  unfold ocrPass
  rw [ocrPass_false_inv ocr init cap hlen cap le_rfl]
  congr 1
  refine List.map_congr_left ?_
  intro i hi
  have hcap : i < cap := List.mem_range.mp hi
  by_cases hcase : (init.getD i default).source = PageSource.needsOcr
  · rw [if_pos ⟨hcap, hcase⟩, if_pos hcase]
  · rw [if_neg (by rintro ⟨-, hsrc⟩; exact hcase hsrc), if_neg hcase]

/-- Closed form of the forced OCR pass: every page up to the cap is OCR
processed in order. -/
theorem ocrPass_force_eq (ocr : ℕ → OcrOutcome) (cap : ℕ) :
    ocrPass true ocr cap [] =
      ((List.range cap).map (fun i => ocrToPage ocr i), List.range cap) := by
  induction cap with
  | zero => rfl
  | succ cap ih =>
    unfold ocrPass at ih ⊢
    rw [List.range_succ, List.foldl_append, ih]
    simp only [List.foldl_cons, List.foldl_nil]
    unfold ocrStep
    rw [if_neg (by rintro ⟨hcon, -⟩; exact absurd hcon (by simp))]
    simp only
    rw [if_neg (by rw [List.length_map, List.length_range]; omega)]
    rw [List.map_append]
    rfl

/-- A classified page is tagged needs_ocr iff its text is not meaningful. -/
theorem classifyPage_source (i : ℕ) (t : List Char) :
    (classifyPage i t).source = PageSource.needsOcr ↔ is_text_meaningful t = false := by
  unfold classifyPage
  split_ifs with h <;> simp [h]

/-- Length of the first pass when pypdf can open the file. -/
theorem initResults_length (cfg : ExtractCfg) (hr : cfg.readerOk = true) :
    (initResults cfg false).length = extractCap cfg := by
  unfold initResults
  rw [if_neg (by simp [hr])]
  rw [List.length_map, List.length_range]

/-- Entries of the first pass when pypdf can open the file. -/
theorem initResults_getD (cfg : ExtractCfg) (hr : cfg.readerOk = true) (i : ℕ)
    (hi : i < extractCap cfg) :
    (initResults cfg false).getD i default = classifyPage i (cfg.pdfTexts.getD i []) := by
  unfold initResults
  rw [if_neg (by simp [hr])]
  exact getD_map_range _ _ i hi default

/-- Closed form of the non-forced extraction when the service is configured
and pypdf can open the file: meaningful pages keep their classified entry,
the others carry their OCR result, and OCR is invoked exactly for the
non-meaningful pages. -/
theorem extract_false_eq (cfg : ExtractCfg) (hc : cfg.configured = true)
    (hr : cfg.readerOk = true) :
    extract_pages_text cfg false = .ok (
      (List.range (extractCap cfg)).map (fun i =>
        if is_text_meaningful (cfg.pdfTexts.getD i [])
        then classifyPage i (cfg.pdfTexts.getD i [])
        else ocrToPage cfg.ocr i),
      (List.range (extractCap cfg)).filter
        (fun i => !(is_text_meaningful (cfg.pdfTexts.getD i [])))) := by
  unfold extract_pages_text
  rw [if_neg (by simp [hc])]
  by_cases hany :
      (initResults cfg false).any (fun p => p.source == PageSource.needsOcr) = true
  · rw [if_pos (by simp [hany])]
    rw [ocrPass_false_eq cfg.ocr _ _ (initResults_length cfg hr)]
    congr 1
    rw [Prod.mk.injEq]
    constructor
    · refine List.map_congr_left ?_
      intro i hi
      have hcap : i < extractCap cfg := List.mem_range.mp hi
      rw [initResults_getD cfg hr i hcap]
      by_cases hm : is_text_meaningful (cfg.pdfTexts.getD i []) = true
      · rw [if_pos hm, if_neg (by
          intro hcon
          rw [(classifyPage_source i _).mp hcon] at hm
          exact absurd hm (by simp))]
      · have hm' : is_text_meaningful (cfg.pdfTexts.getD i []) = false := by
          rw [Bool.not_eq_true] at hm
          exact hm
        rw [if_neg hm, if_pos ((classifyPage_source i _).mpr hm')]
    · refine List.filter_congr ?_
      intro i hi
      have hcap : i < extractCap cfg := List.mem_range.mp hi
      rw [initResults_getD cfg hr i hcap]
      by_cases hm : is_text_meaningful (cfg.pdfTexts.getD i []) = true
      · rw [hm]
        rw [Bool.not_true]
        rw [beq_eq_false_iff_ne.mpr (by
          intro hcon
          rw [(classifyPage_source i _).mp hcon] at hm
          exact absurd hm (by simp))]
      · have hm' : is_text_meaningful (cfg.pdfTexts.getD i []) = false := by
          rw [Bool.not_eq_true] at hm
          exact hm
        rw [hm', Bool.not_false]
        rw [beq_iff_eq.mpr ((classifyPage_source i _).mpr hm')]
  · rw [Bool.not_eq_true] at hany
    rw [if_neg (by simp [hany])]
    have hall : ∀ i, i < extractCap cfg → is_text_meaningful (cfg.pdfTexts.getD i []) = true := by
      intro i hi
      have hmem : classifyPage i (cfg.pdfTexts.getD i []) ∈ initResults cfg false := by
        unfold initResults
        rw [if_neg (by simp [hr])]
        exact List.mem_map.mpr ⟨i, List.mem_range.mpr hi, rfl⟩
      have hnp := List.any_eq_false.mp hany _ hmem
      rw [Bool.not_eq_true, beq_eq_false_iff_ne] at hnp
      by_contra hm
      rw [Bool.not_eq_true] at hm
      exact hnp ((classifyPage_source i _).mpr hm)
    congr 1
    rw [Prod.mk.injEq]
    constructor
    · unfold initResults
      rw [if_neg (by simp [hr])]
      refine List.map_congr_left ?_
      intro i hi
      have hcap : i < extractCap cfg := List.mem_range.mp hi
      rw [if_pos (hall i hcap)]
    · refine (List.filter_eq_nil_iff.mpr ?_).symm
      intro i hi
      have hcap : i < extractCap cfg := List.mem_range.mp hi
      rw [hall i hcap]
      simp

/-- Non-forced extraction returns no pages when pypdf cannot open the file
and no page needs OCR processing (the OCR phase is skipped because the
first pass produced no needs_ocr entries). -/
theorem extract_false_noreader (cfg : ExtractCfg) (hc : cfg.configured = true)
    (hr : cfg.readerOk = false) :
    extract_pages_text cfg false = .ok ([], []) := by
  have hinit : initResults cfg false = [] := by
    unfold initResults
    rw [if_pos (by simp [hr])]
  unfold extract_pages_text
  rw [if_neg (by simp [hc]), hinit]
  rw [if_neg (by simp)]

/-- Closed form of the forced extraction when the service is configured:
every existing page up to the cap is OCR processed. -/
theorem extract_true_eq (cfg : ExtractCfg) (hc : cfg.configured = true) :
    extract_pages_text cfg true = .ok (
      (List.range (extractCap cfg)).map (fun i => ocrToPage cfg.ocr i),
      List.range (extractCap cfg)) := by
  have hinit : initResults cfg true = [] := by
    unfold initResults
    rw [if_pos (by simp)]
  unfold extract_pages_text
  rw [if_neg (by simp [hc])]
  rw [if_pos (by simp)]
  rw [hinit, ocrPass_force_eq]

/-- The per-page test of the orchestrator gate (text truthy and non-blank
after strip) fails exactly when the stripped text is empty. -/
theorem emptyish_iff (a : List Char) :
    (a.isEmpty || (pyStrip a).isEmpty) = true ↔ pyStrip a = [] := by
  constructor
  · intro h
    rcases Bool.or_eq_true_iff.mp h with h | h
    · rw [List.isEmpty_iff.mp h]
      rfl
    · exact List.isEmpty_iff.mp h
  · intro h
    rw [h]
    simp

/-- Evaluation of the orchestrator extraction step once the first pass is
known. -/
theorem bgExtractPages_ok (cfg : ExtractCfg) (pages : List PageResult) (calls : List ℕ)
    (h : extract_pages_text cfg false = .ok (pages, calls)) :
    bgExtractPages cfg =
      if pages.all (fun p => p.text.isEmpty || (pyStrip p.text).isEmpty) then
        (match extract_pages_text cfg true with
          | .error e => .error e
          | .ok (p2, _) => .ok (p2, true))
      else .ok (pages, false) := by
  unfold bgExtractPages
  rw [h]

/-- When the service is configured, the non-forced extraction returns
normally. -/
theorem extract_false_isOk (cfg : ExtractCfg) (hc : cfg.configured = true) :
    ∃ pages calls, extract_pages_text cfg false = .ok (pages, calls) := by
  by_cases hr : cfg.readerOk = true
  · exact ⟨_, _, extract_false_eq cfg hc hr⟩
  · rw [Bool.not_eq_true] at hr
    exact ⟨_, _, extract_false_noreader cfg hc hr⟩

/-- The extractor is invoked a second time with OCR forced exactly when no
page of the first extraction yields non-empty text. -/
theorem forcedRetry_iff (cfg : ExtractCfg) (hc : cfg.configured = true) :
    forcedRetry cfg = true ↔ ∀ p ∈ extractResults cfg false, pyStrip p.text = [] := by
  obtain ⟨pages, calls, hpr⟩ := extract_false_isOk cfg hc
  have hres : extractResults cfg false = pages := by
    unfold extractResults
    rw [hpr]
  rw [hres]
  unfold forcedRetry
  rw [bgExtractPages_ok cfg pages calls hpr]
  by_cases hall : pages.all (fun p => p.text.isEmpty || (pyStrip p.text).isEmpty) = true
  · rw [if_pos hall]
    rw [extract_true_eq cfg hc]
    constructor
    · rintro - p hp
      exact (emptyish_iff p.text).mp (List.all_eq_true.mp hall p hp)
    · rintro -
      rfl
  · have hallb : pages.all (fun p => p.text.isEmpty || (pyStrip p.text).isEmpty) = false := by
      rwa [Bool.not_eq_true] at hall
    simp only [hallb, Bool.false_eq_true, if_false]
    constructor
    · rintro hcon
      exact absurd hcon (by simp)
    · intro hforall
      exfalso
      apply hall
      rw [List.all_eq_true]
      intro p hp
      exact (emptyish_iff p.text).mpr (hforall p hp)

/-- C2: during ingestion the orchestrator first runs extraction without
forcing OCR; the extractor is invoked a second time with OCR forced iff no
page of the first extraction yields non-empty text; within the first
extraction OCR is invoked exactly for the pages whose text layer is not
meaningful; and when some page is meaningful, no forced retry happens and
OCR is never invoked for any meaningful page. -/
theorem ocr_fallback_gate (cfg : ExtractCfg) (hc : cfg.configured = true) :
    (forcedRetry cfg = true ↔ ∀ p ∈ extractResults cfg false, pyStrip p.text = [])
    ∧ (cfg.readerOk = true →
        extractCalls cfg false = (List.range (extractCap cfg)).filter
          (fun i => !(is_text_meaningful (cfg.pdfTexts.getD i []))))
    ∧ (cfg.readerOk = true → ∀ i, i < extractCap cfg →
        is_text_meaningful (cfg.pdfTexts.getD i []) = true →
        forcedRetry cfg = false ∧ i ∉ extractCalls cfg false) := by
  refine ⟨forcedRetry_iff cfg hc, ?_, ?_⟩
  · intro hr
    unfold extractCalls
    rw [extract_false_eq cfg hc hr]
  · intro hr i hi hm
    constructor
    · have hmem : (⟨i + 1, pyStrip (cfg.pdfTexts.getD i []), .text, 100⟩ : PageResult)
          ∈ extractResults cfg false := by
        unfold extractResults
        rw [extract_false_eq cfg hc hr]
        simp only
        refine List.mem_map.mpr ⟨i, List.mem_range.mpr hi, ?_⟩
        rw [if_pos hm]
        unfold classifyPage
        rw [if_pos hm]
      have hne := meaningful_strip_ne _ hm
      cases hfr : forcedRetry cfg
      · rfl
      · exfalso
        have := (forcedRetry_iff cfg hc).mp hfr _ hmem
        exact hne this
    · intro hin
      unfold extractCalls at hin
      rw [extract_false_eq cfg hc hr] at hin
      simp only at hin
      have := List.of_mem_filter hin
      rw [hm] at this
      exact absurd this (by simp)

/-- Extraction configuration for the C2 and C9 witnesses: two pages, the
first with an unreadable text layer, the second with a meaningful one; the
OCR capability always raises. -/
def exOcrErr : ℕ → OcrOutcome := fun _ => OcrOutcome.err

/-- A meaningful page text for witnesses. -/
def exMeaningfulPage : List Char :=
  ("the cat ran 12 times. it was a good day for every one").toList

/-- Witness configuration: page 0 unreadable, page 1 meaningful. -/
def exCfg : ExtractCfg :=
  ⟨50, true, [("zz").toList, exMeaningfulPage], exOcrErr, true⟩

/-- Witness for C2 at the concrete configuration: the forced-retry gate,
the exact OCR call set (only page 0, whose text is not meaningful), and the
no-retry guarantee in presence of the meaningful page 1. -/
theorem ocr_fallback_gate_witness :
    ((forcedRetry exCfg = true ↔ ∀ p ∈ extractResults exCfg false, pyStrip p.text = [])
        ∧ extractCalls exCfg false = [0]
        ∧ (forcedRetry exCfg = false ∧ 1 ∉ extractCalls exCfg false)) := by
  have h := ocr_fallback_gate exCfg (by decide)
  refine ⟨h.1, ?_, ?_⟩
  · rw [h.2.1 (by decide)]
    decide
  · exact h.2.2 (by decide) 1 (by decide) (by decide)

/-- A configuration whose OCR capability is misconfigured (endpoint or key
missing): AZURE_DI_ENDPOINT / AZURE_DI_KEY are absent. -/
def exCfgMis : ExtractCfg := ⟨50, true, [("zz").toList], exOcrErr, false⟩

/-- C9 counterexample: with the OCR capability misconfigured, extraction
raises RuntimeError upfront and records no page at all, instead of
recording pages with empty text and confidence 0 and continuing, refuting
the frozen claim for the misconfigured case. -/
theorem ocr_misconfigured_cx :
    extract_pages_text exCfgMis false = .error .runtimeError
      ∧ extractResults exCfgMis false = [] := by
  exact ⟨rfl, rfl⟩

/-- C9 (amended): when the service is configured, a page requiring OCR
whose OCR call raises (capability unreachable at call time) is recorded
with empty text, source azure and confidence 0, and extraction continues:
the result keeps one entry per page and every other page keeps its own
entry. When instead the OCR capability is misconfigured, extract_pages_text
raises RuntimeError upfront and the whole document aborts (see the
counterexample). -/
theorem ocr_failure_records_empty (cfg : ExtractCfg) (hc : cfg.configured = true)
    (hr : cfg.readerOk = true) (i : ℕ) (hi : i < extractCap cfg)
    (hm : is_text_meaningful (cfg.pdfTexts.getD i []) = false)
    (he : cfg.ocr i = .err) :
    (extractResults cfg false).get? i = some ⟨i + 1, [], .azure, 0⟩
      ∧ (extractResults cfg false).length = extractCap cfg
      ∧ i ∈ extractCalls cfg false
      ∧ (∀ j, j < extractCap cfg →
          (extractResults cfg false).get? j = some (
            if is_text_meaningful (cfg.pdfTexts.getD j [])
            then classifyPage j (cfg.pdfTexts.getD j [])
            else ocrToPage cfg.ocr j)) := by
  have hres : extractResults cfg false = (List.range (extractCap cfg)).map (fun k =>
      if is_text_meaningful (cfg.pdfTexts.getD k [])
      then classifyPage k (cfg.pdfTexts.getD k [])
      else ocrToPage cfg.ocr k) := by
    unfold extractResults
    rw [extract_false_eq cfg hc hr]
  have hgen : ∀ j, j < extractCap cfg →
      (extractResults cfg false).get? j = some (
        if is_text_meaningful (cfg.pdfTexts.getD j [])
        then classifyPage j (cfg.pdfTexts.getD j [])
        else ocrToPage cfg.ocr j) := by
    intro j hj
    rw [hres, List.get?_eq_getElem?, List.getElem?_map, List.getElem?_range hj,
      Option.map_some']
  refine ⟨?_, ?_, ?_, hgen⟩
  · rw [hgen i hi, if_neg (by rw [hm]; simp)]
    unfold ocrToPage
    rw [he]
  · rw [hres, List.length_map, List.length_range]
  · unfold extractCalls
    rw [extract_false_eq cfg hc hr]
    simp only
    refine List.mem_filter.mpr ⟨List.mem_range.mpr hi, ?_⟩
    rw [hm]
    rfl

/-- Witness for the amended C9 theorem at the concrete configuration: page
0 needs OCR, the OCR capability raises, the page is recorded with empty
text, source azure, confidence 0, and page 1 is still extracted (the
result keeps both pages). -/
theorem ocr_failure_records_empty_witness :
    (extractResults exCfg false).get? 0 = some ⟨1, [], .azure, 0⟩
      ∧ (extractResults exCfg false).length = 2
      ∧ 0 ∈ extractCalls exCfg false := by
  have h := ocr_failure_records_empty exCfg (by decide) (by decide) 0 (by decide) (by decide)
    (by decide)
  refine ⟨h.1, ?_, h.2.2.1⟩
  rw [h.2.1]
  decide

/-- The sufficiency check applied per chunk by has_sufficient_text_data:
truthy chunk, stripped length strictly above 50, a run of 3 letters and a
common stop-word (the two regex searches of the source). This is weaker
than is_text_meaningful: no token count, no 2-of-4 pattern rule, no
alphabetic ratio, and a strict length bound. -/
def chunkSuff (c : List Char) : Bool :=
  !c.isEmpty && decide (50 < (pyStrip c).length) && letterRun3 c && containsStopWord c

/-- Model of app.query_engine.has_sufficient_text_data: false when the
stored chunk list for the document is empty or all chunks are empty,
otherwise at least 2 of the first 10 chunks must pass chunkSuff. The
flattening in the source is the identity on flat string lists. -/
def has_sufficient_text_data (docs : List (List Char)) : Bool :=
  if docs.isEmpty || docs.all (fun d => d.isEmpty) then false
  else decide (2 ≤ ((docs.take 10).countP chunkSuff))

/-- The apostrophe character, written by code point. -/
def apos : Char := Char.ofNat 39

/-- Phrases the answer post-filter searches for, lower-cased. -/
def irrelevantPhrases : List (List Char) :=
  [("not relevant").toList, ("not related").toList,
    ("can").toList ++ [apos] ++ ("t answer").toList]

/-- Whether the needle is a prefix of the haystack. -/
def startsWithList : List Char → List Char → Bool
  | _, [] => true
  | [], _ :: _ => false
  | c :: cs, d :: ds => c == d && startsWithList cs ds

/-- Whether the needle occurs anywhere in the haystack. -/
def containsSub (hay needle : List Char) : Bool :=
  (List.range (hay.length + 1)).any (fun i => startsWithList (hay.drop i) needle)

/-- Post-filter of answer_query on the model answer: lower-case it and look
for any phrase indicating the model judged the question irrelevant. -/
def answerFlagsIrrelevant (ans : List Char) : Bool :=
  irrelevantPhrases.any (fun ph => containsSub (ans.map Char.toLower) ph)

/-- Return values of answer_query. The fixed message strings of the source
are abstracted as constructors: docNotFound is the not-found/unauthorized
message, processingFailed the message starting with the text "Failed to
process document for answering:", noContent the no-relevant-information
apology, notRelevant the fixed refusal message of the relevance gate,
modelAnswer a completion reply, fallbackAnswer the truncated-context
fallback. -/
inductive AnswerResult
  | docNotFound
  | processingFailed (e : PyErr)
  | noContent
  | notRelevant
  | modelAnswer (t : List Char)
  | fallbackAnswer (t : List Char)
deriving DecidableEq, Repr

/-- Observable outcome of answer_query: the returned answer, whether the
chat-completion capability was invoked, and whether the lazy on-the-fly
ingestion branch was entered. -/
structure AnswerOut where
  result : AnswerResult
  completionInvoked : Bool
  lazyAttempted : Bool
deriving DecidableEq, Repr

/-- The inputs answer_query depends on: the stored chunks consulted by
has_sufficient_text_data, the Document row (none when absent), the calling
user, whether the PDF file exists on disk, the extraction configuration for
the lazy branch, the documents and distances of the top_k vector query, the
availability of the OpenAI client, and the completion reply (none when the
provider call raises). -/
structure AnswerEnv where
  docs : List (List Char)
  docRow : Option DocRow
  userId : ℕ
  pdfExists : Bool
  cfg : ExtractCfg
  queryDocs : List (List Char)
  queryDists : List ℚ
  clientAvailable : Bool
  completionReply : Option (List Char)

/-- Chunk separator used when joining context. -/
def nl2 : List Char := ['\n', '\n']

/-- Mean similarity distance of the returned matches, 1.0 when none. -/
def avgDistance (dists : List ℚ) : ℚ :=
  if dists.isEmpty then 1 else dists.sum / dists.length

/-- Retrieval phase of answer_query, after any lazy ingestion: apologise
when no documents were retrieved; refuse when the mean distance exceeds the
relevance threshold 0.7 without invoking completion; otherwise assemble the
context and, when the client is available, invoke completion (post-filtered
for irrelevance phrases; provider exceptions fall back to the truncated
context), else return the fallback without invoking completion. -/
def answerRetrieval (env : AnswerEnv) : AnswerResult × Bool :=
  if env.queryDocs.isEmpty then (.noContent, false)
  else if avgDistance env.queryDists > 7 / 10 then (.notRelevant, false)
  else if env.clientAvailable then
    match env.completionReply with
    | some r => (if answerFlagsIrrelevant r then .notRelevant else .modelAnswer r, true)
    | none => (.fallbackAnswer ((List.intercalate nl2 env.queryDocs).take 1000), true)
  else (.fallbackAnswer ((List.intercalate nl2 env.queryDocs).take 1000), false)

/-- The Python call chunk_text(text, chunk_size=1000, overlap=200) made by
the lazy ingestion branches of answer_query and
generate_interview_questions: chunk_text has a single positional parameter,
so the interpreter raises TypeError for the unexpected keyword argument
before the chunker body runs. -/
def chunkTextKwargsCall (_text : List Char) (_chunkSize _overlap : ℕ) :
    Except PyErr (List (List Char)) := .error .typeError

/-- The page loop of the lazy ingestion branch of answer_query: pages with
blank text are skipped; for any other page the branch calls
chunk_text(text, chunk_size=1000, overlap=200), which raises TypeError, so
the per-chunk vector-store writes that would follow are never reached. -/
def lazyIngestPages (pages : List PageResult) : Except PyErr ℕ :=
  pages.foldlM (fun total p =>
    if (pyStrip p.text).isEmpty then pure total
    else do
      let chunks ← chunkTextKwargsCall (pyStrip p.text) 1000 200
      pure (total + chunks.length)) 0

/-- Extraction and page-loop step of the lazy branch: extraction errors and
the TypeError of the page loop are caught and answered as
processingFailed; otherwise retrieval follows. -/
def answerLazyExtract (env : AnswerEnv) : AnswerOut :=
  match bgExtractPages env.cfg with
  | .error e => ⟨.processingFailed e, false, true⟩
  | .ok (pages, _) =>
    match lazyIngestPages pages with
    | .error e => ⟨.processingFailed e, false, true⟩
    | .ok _ => ⟨(answerRetrieval env).1, (answerRetrieval env).2, true⟩

/-- Lazy branch once the Document row is found: foreign rows answer
docNotFound; a missing PDF file falls through silently to retrieval; with
the PDF present, extraction and the page loop run. -/
def answerLazyDoc (env : AnswerEnv) (d : DocRow) : AnswerOut :=
  if d.owner ≠ env.userId then ⟨.docNotFound, false, true⟩
  else if !env.pdfExists then ⟨(answerRetrieval env).1, (answerRetrieval env).2, true⟩
  else answerLazyExtract env

/-- Lazy on-the-fly ingestion branch of answer_query. -/
def answerLazy (env : AnswerEnv) : AnswerOut :=
  match env.docRow with
  | none => ⟨.docNotFound, false, true⟩
  | some d => answerLazyDoc env d

/-- Model of app.query_engine.answer_query. When the stored text is
sufficient, the lazy branch is skipped; otherwise the lazy branch runs
first and retrieval follows in the non-failing cases. -/
def answer_query (env : AnswerEnv) : AnswerOut :=
  if has_sufficient_text_data env.docs then
    ⟨(answerRetrieval env).1, (answerRetrieval env).2, false⟩
  else answerLazy env

/-- The guard of has_sufficient_text_data is redundant: the check is
equivalent to at least 2 of the first 10 chunks passing chunkSuff. -/
theorem has_sufficient_iff (docs : List (List Char)) :
    has_sufficient_text_data docs = true ↔ 2 ≤ ((docs.take 10).countP chunkSuff) := by
  unfold has_sufficient_text_data
  by_cases hg : (docs.isEmpty || docs.all (fun d => d.isEmpty)) = true
  · rw [if_pos hg]
    constructor
    · intro h
      exact absurd h (by simp)
    · intro h2
      exfalso
      have hpos : 0 < (docs.take 10).countP chunkSuff := by omega
      obtain ⟨c, hc, hcs⟩ := List.countP_pos_iff.mp hpos
      have hcdocs : c ∈ docs := List.mem_of_mem_take hc
      rcases Bool.or_eq_true_iff.mp hg with h | h
      · rw [List.isEmpty_iff.mp h] at hcdocs
        exact absurd hcdocs (by simp)
      · have hce := List.all_eq_true.mp h c hcdocs
        unfold chunkSuff at hcs
        rw [hce] at hcs
        simp at hcs
  · rw [if_neg hg]
    exact decide_eq_true_iff

/-- The lazy branch of answer_query is entered exactly when the stored text
is insufficient. -/
theorem answer_lazy_flag (env : AnswerEnv) :
    (answer_query env).lazyAttempted = !has_sufficient_text_data env.docs := by
  unfold answer_query
  by_cases hs : has_sufficient_text_data env.docs = true
  · rw [if_pos hs, hs]
    rfl
  · rw [Bool.not_eq_true] at hs
    rw [hs]
    rw [if_neg (by simp)]
    unfold answerLazy
    cases hdoc : env.docRow with
    | none => rfl
    | some d =>
      show (answerLazyDoc env d).lazyAttempted = !false
      unfold answerLazyDoc
      split_ifs <;> try rfl
      unfold answerLazyExtract
      cases hbg : bgExtractPages env.cfg with
      | error e => rfl
      | ok pr =>
        obtain ⟨pages, b⟩ := pr
        show (match lazyIngestPages pages with
          | Except.error e => (⟨AnswerResult.processingFailed e, false, true⟩ : AnswerOut)
          | Except.ok _ =>
              ⟨(answerRetrieval env).1, (answerRetrieval env).2, true⟩).lazyAttempted = !false
        cases hli : lazyIngestPages pages <;> rfl

/-- C6 (amended): the answer operation triggers lazy on-the-fly ingestion
iff fewer than 2 of the first 10 indexed chunks pass the weaker
has_sufficient_text_data check (non-empty, stripped length strictly above
50, a 3-letter run, a common stop-word). This check is NOT the
is_text_meaningful test of the page extractor: it drops the token-count,
2-of-4-pattern and alpha-ratio conditions (see the counterexample, where
the two classifiers disagree). -/
theorem answer_lazy_gate (env : AnswerEnv) :
    (answer_query env).lazyAttempted = true ↔ ((env.docs.take 10).countP chunkSuff) < 2 := by
  rw [answer_lazy_flag env]
  by_cases hs : has_sufficient_text_data env.docs = true
  · rw [hs]
    have h2 := (has_sufficient_iff env.docs).mp hs
    constructor
    · intro h
      exact absurd h (by simp)
    · intro h
      omega
  · rw [Bool.not_eq_true] at hs
    rw [hs]
    constructor
    · rintro -
      by_contra hcon
      rw [not_lt] at hcon
      rw [(has_sufficient_iff env.docs).mpr hcon] at hs
      exact absurd hs (by simp)
    · rintro -
      rfl

/-- A chunk that passes the weaker sufficiency check but fails the page
extractor meaningfulness test: the stop-word and letter run are present and
the stripped length is 68, but there are only 3 whitespace tokens and the
alphabetic ratio is far below 0.40. -/
def exSuffChunk : List Char := ("the aaa ").toList ++ List.replicate 60 ('1')

/-- Stored chunks for the C6 counterexample. -/
def exDocsC6 : List (List Char) := [exSuffChunk, exSuffChunk]

/-- Environment for the C6 counterexample (the Document row is absent, so
entering the lazy branch would be observable as docNotFound). -/
def exEnvC6 : AnswerEnv := ⟨exDocsC6, none, 0, false, exCfg, [], [], false, none⟩

/-- C6 counterexample: a document whose stored chunks contain ZERO chunks
meaningful by the is_text_meaningful test of the page extractor still skips
lazy ingestion, because has_sufficient_text_data uses a weaker check that
both chunks pass; this refutes the frozen claim that the gate uses the same
meaningfulness test as the extractor. -/
theorem answer_lazy_gate_cx :
    has_sufficient_text_data exDocsC6 = true
      ∧ exDocsC6.countP is_text_meaningful = 0
      ∧ (answer_query exEnvC6).lazyAttempted = false := by decide

/-- C4: in the answer operation (with sufficient stored text, so retrieval
runs directly) and non-empty retrieved matches: when the mean similarity
distance exceeds 0.7 the fixed refusal is returned and the chat-completion
capability is not invoked; when the mean distance is at most 0.7 and the
completion capability is configured, completion is invoked. -/
theorem relevance_gate (env : AnswerEnv) (hs : has_sufficient_text_data env.docs = true)
    (hd : env.queryDocs ≠ []) :
    (avgDistance env.queryDists > 7 / 10 →
      (answer_query env).result = .notRelevant
        ∧ (answer_query env).completionInvoked = false)
    ∧ (avgDistance env.queryDists ≤ 7 / 10 → env.clientAvailable = true →
      (answer_query env).completionInvoked = true) := by
  have ha : answer_query env = ⟨(answerRetrieval env).1, (answerRetrieval env).2, false⟩ := by
    unfold answer_query
    rw [if_pos hs]
  have hde : env.queryDocs.isEmpty = false := by
    cases hq : env.queryDocs with
    | nil => exact absurd hq hd
    | cons a l => rfl
  constructor
  · intro hgt
    rw [ha]
    have hr : answerRetrieval env = (.notRelevant, false) := by
      unfold answerRetrieval
      rw [if_neg (by simp [hde]), if_pos hgt]
    rw [hr]
    exact ⟨rfl, rfl⟩
  · intro hle hcl
    rw [ha]
    show (answerRetrieval env).2 = true
    unfold answerRetrieval
    rw [if_neg (by simp [hde]), if_neg (not_lt.mpr hle), if_pos hcl]
    cases hrep : env.completionReply <;> rfl

/-- Environment for part one of the C4 witness: sufficient stored text,
one retrieved match at distance 0.9. -/
def exEnvC4far : AnswerEnv :=
  ⟨exDocsC6, none, 0, false, exCfg, [("x").toList], [(9 : ℚ) / 10], true, some (("ok").toList)⟩

/-- Environment for part two of the C4 witness: one retrieved match at
distance 0.5 and an available completion client. -/
def exEnvC4near : AnswerEnv :=
  ⟨exDocsC6, none, 0, false, exCfg, [("x").toList], [(1 : ℚ) / 2], true, some (("ok").toList)⟩

/-- The mean of a single distance is that distance. -/
theorem avgDistance_singleton (q : ℚ) : avgDistance [q] = q := by
  simp [avgDistance]

/-- Witness for C4: at mean distance 0.9 the refusal is returned without
invoking completion; at mean distance 0.5 completion is invoked. -/
theorem relevance_gate_witness :
    ((answer_query exEnvC4far).result = .notRelevant
        ∧ (answer_query exEnvC4far).completionInvoked = false)
      ∧ (answer_query exEnvC4near).completionInvoked = true :=
  ⟨(relevance_gate exEnvC4far (by decide) (by decide)).1
      (by show avgDistance [(9 : ℚ) / 10] > 7 / 10
          rw [avgDistance_singleton]
          norm_num),
    (relevance_gate exEnvC4near (by decide) (by decide)).2
      (by show avgDistance [(1 : ℚ) / 2] ≤ 7 / 10
          rw [avgDistance_singleton]
          norm_num)
      (by decide)⟩

/-- The page loop of the lazy branch raises TypeError as soon as it meets a
page with non-blank text. -/
theorem lazyIngestPages_error (pages : List PageResult)
    (h : ∃ p ∈ pages, pyStrip p.text ≠ []) :
    lazyIngestPages pages = .error .typeError := by
  unfold lazyIngestPages
  suffices hgen : ∀ (acc : ℕ), pages.foldlM (fun total p =>
      if (pyStrip p.text).isEmpty then pure total
      else do
        let chunks ← chunkTextKwargsCall (pyStrip p.text) 1000 200
        pure (total + chunks.length)) acc = .error .typeError by
    exact hgen 0
  induction pages with
  | nil =>
    obtain ⟨p, hp, -⟩ := h
    exact absurd hp (by simp)
  | cons p rest ih =>
    intro acc
    rw [List.foldlM_cons]
    by_cases hpe : (pyStrip p.text).isEmpty = true
    · rw [if_pos hpe]
      have hrest : ∃ q ∈ rest, pyStrip q.text ≠ [] := by
        obtain ⟨q, hq, hqe⟩ := h
        rcases List.mem_cons.mp hq with hq | hq
        · subst hq
          exact absurd (List.isEmpty_iff.mp hpe) hqe
        · exact ⟨q, hq, hqe⟩
      exact ih hrest acc
    · rw [if_neg hpe]
      rfl

/-- C10 (amended): with insufficient stored text, an existing
owner-matching Document row, the PDF present, and extraction succeeding
with at least one page of non-blank text, the lazy branch of answer_query
always raises TypeError at its chunk_text(text, chunk_size=1000,
overlap=200) call and the operation returns the processing-failure message
without invoking completion. When extraction yields no non-blank page the
branch completes without indexing anything and falls through to retrieval
(see the counterexample), so the frozen claim that the branch ALWAYS fails
is too strong. -/
theorem answer_lazy_typeerror (env : AnswerEnv)
    (hs : has_sufficient_text_data env.docs = false)
    (d : DocRow) (hdoc : env.docRow = some d) (how : d.owner = env.userId)
    (hpdf : env.pdfExists = true) (pages : List PageResult) (bflag : Bool)
    (hex : bgExtractPages env.cfg = .ok (pages, bflag))
    (hsome : ∃ p ∈ pages, pyStrip p.text ≠ []) :
    answer_query env = ⟨.processingFailed .typeError, false, true⟩ := by
  unfold answer_query
  rw [if_neg (by simp [hs])]
  unfold answerLazy
  rw [hdoc]
  show answerLazyDoc env d = ⟨.processingFailed .typeError, false, true⟩
  unfold answerLazyDoc
  rw [if_neg (fun hcon => hcon how)]
  rw [if_neg (by rw [hpdf]; simp)]
  unfold answerLazyExtract
  rw [hex]
  show (match lazyIngestPages pages with
    | Except.error e => (⟨AnswerResult.processingFailed e, false, true⟩ : AnswerOut)
    | Except.ok _ =>
        ⟨(answerRetrieval env).1, (answerRetrieval env).2, true⟩)
      = ⟨.processingFailed .typeError, false, true⟩
  rw [lazyIngestPages_error pages hsome]

/-- Extraction configuration in which every page comes back blank: the only
page has an unreadable text layer and the OCR capability raises on every
call, in both the first pass and the forced retry. -/
def exCfgAllEmpty : ExtractCfg := ⟨50, true, [("zz").toList], exOcrErr, true⟩

/-- Environment for the C10 counterexample: insufficient stored text,
owner-matching row, PDF present, but extraction yields only blank pages. -/
def exEnvC10 : AnswerEnv :=
  ⟨[], some ⟨5, 3, 0, .processing, 0⟩, 3, true, exCfgAllEmpty, [], [], false, none⟩

/-- C10 counterexample: under all the hypotheses of the frozen claim except
that every extracted page is blank, the lazy branch never reaches the
chunk_text call: answer_query falls through to retrieval and answers
noContent, not the processing-failure message, refuting the claim that the
branch always fails. -/
theorem answer_lazy_typeerror_cx :
    has_sufficient_text_data exEnvC10.docs = false
      ∧ exEnvC10.docRow = some ⟨5, 3, 0, .processing, 0⟩
      ∧ exEnvC10.pdfExists = true
      ∧ (answer_query exEnvC10).lazyAttempted = true
      ∧ (answer_query exEnvC10).result = .noContent
      ∧ (answer_query exEnvC10).result ≠ .processingFailed .typeError := by decide

/-- Environment for the C10 witness: same as the counterexample but the
second page of the PDF has a meaningful text layer. -/
def exEnvC10w : AnswerEnv :=
  ⟨[], some ⟨5, 3, 0, .processing, 0⟩, 3, true, exCfg, [], [], false, none⟩

/-- The pages exCfg extracts without forcing OCR: page 0 blank after its
failed OCR, page 1 from its meaningful text layer. -/
def exPagesC10 : List PageResult :=
  [⟨1, [], .azure, 0⟩, ⟨2, exMeaningfulPage, .text, 100⟩]

/-- Witness for the amended C10 theorem at the concrete environment. -/
theorem answer_lazy_typeerror_witness :
    answer_query exEnvC10w = ⟨.processingFailed .typeError, false, true⟩ :=
  answer_lazy_typeerror exEnvC10w (by decide) ⟨5, 3, 0, .processing, 0⟩ (by decide)
    (by decide) (by decide) exPagesC10 false (by rfl) (by decide)

/-- Vector ids by construction site. The uuidId form models the string
doc_id + fresh uuid4 hex + sequence index built by add_chunks; the pageId
form models the string doc_id + page + running counter built by the lazy
upsert loops of answer_query and generate_interview_questions. A 32-hex
uuid component and a decimal page number never collide, so the two string
shapes are distinct forms. -/
inductive VectorId
  | uuidId (docId : ℕ) (token : ℕ) (idx : ℕ)
  | pageId (docId : ℕ) (page : ℕ) (counter : ℕ)
deriving DecidableEq, Repr

/-- Model of the id generation of app.vector_db.add_chunks: chunk i of a
call gets doc_id + a fresh uuid4 token + i. The uuid4 draws of the call are
modelled as a stream, one token per chunk. -/
def add_chunks_ids (docId : ℕ) (uuids : ℕ → ℕ) (numChunks : ℕ) : List VectorId :=
  (List.range numChunks).map (fun i => VectorId.uuidId docId (uuids i) i)

/-- Model of the id construction of the lazy upsert loop of answer_query
(ids=[f-string of doc_id, page, total_chunks]): fully deterministic, no
random component. -/
def lazyVectorId (docId page counter : ℕ) : VectorId := .pageId docId page counter

/-- Whether an id carries a fresh random token (the uuidId form). -/
def VectorId.hasFreshToken : VectorId → Bool
  | .uuidId _ _ _ => true
  | .pageId _ _ _ => false

/-- C7 counterexample: the id the lazy upsert path of answer_query builds
for document 7, page 1, counter 0 carries no random component; it is the
same deterministic id in every run of that path, so two runs would share
it. This refutes the frozen claim that every ingestion path that upserts
chunks generates doc_id + random suffix + sequence ids. -/
theorem vector_id_lazy_cx :
    (lazyVectorId 7 1 0).hasFreshToken = false
      ∧ lazyVectorId 7 1 0 = VectorId.pageId 7 1 0 := by decide

/-- C7 (amended): the ids built by add_chunks (the upsert used by
background ingestion and the summarize re-index path) carry doc_id, a
fresh random token and the sequence index: within one call they are
pairwise distinct, and two calls whose token draws are disjoint share no
id, so no run silently overwrites another. The lazy upsert loops of
answer_query and generate_interview_questions instead construct
deterministic pageId-form ids (see the counterexample), though they never
reach the store because chunk_text raises TypeError first. -/
theorem add_chunks_ids_fresh (d1 d2 : ℕ) (u1 u2 : ℕ → ℕ) (n1 n2 : ℕ) :
    (add_chunks_ids d1 u1 n1).Nodup
    ∧ (∀ v ∈ add_chunks_ids d1 u1 n1, v.hasFreshToken = true)
    ∧ ((∀ i < n1, ∀ j < n2, u1 i ≠ u2 j) →
        ∀ v ∈ add_chunks_ids d1 u1 n1, v ∉ add_chunks_ids d2 u2 n2) := by
  refine ⟨?_, ?_, ?_⟩
  · unfold add_chunks_ids
    refine List.Nodup.map_on ?_ (List.nodup_range n1)
    intro i hi j hj hij
    injection hij with h1 h2 h3
  · intro v hv
    unfold add_chunks_ids at hv
    obtain ⟨i, hi, rfl⟩ := List.mem_map.mp hv
    rfl
  · intro hdisj v hv1 hv2
    unfold add_chunks_ids at hv1 hv2
    obtain ⟨i, hi, rfl⟩ := List.mem_map.mp hv1
    obtain ⟨j, hj, hEq⟩ := List.mem_map.mp hv2
    injection hEq with h1 h2 h3
    exact hdisj i (List.mem_range.mp hi) j (List.mem_range.mp hj) h2.symm

/-- First uuid stream for the C7 witness. -/
def exU1 : ℕ → ℕ := fun i => i

/-- Second uuid stream for the C7 witness, disjoint from the first on the
indices used. -/
def exU2 : ℕ → ℕ := fun i => i + 100

/-- Witness for the amended C7 theorem: two concrete runs of add_chunks on
document 5 with disjoint token draws produce duplicate-free, fresh-token
ids that share no id across the runs. -/
theorem add_chunks_ids_fresh_witness :
    (add_chunks_ids 5 exU1 2).Nodup
      ∧ (∀ v ∈ add_chunks_ids 5 exU1 2, v ∉ add_chunks_ids 5 exU2 2) :=
  ⟨(add_chunks_ids_fresh 5 5 exU1 exU2 2 2).1,
    (add_chunks_ids_fresh 5 5 exU1 exU2 2 2).2.2 (by decide)⟩

/-- Running totals: entry i is acc plus the sum of the first i+1 values. -/
def runningTotals : List ℕ → ℕ → List ℕ
  | [], _ => []
  | x :: xs, acc => (acc + x) :: runningTotals xs (acc + x)

/-- The last running total is the full sum. -/
theorem runningTotals_getLastD (l : List ℕ) :
    ∀ (acc d : ℕ), l ≠ [] → (runningTotals l acc).getLastD d = acc + l.sum := by
  induction l with
  | nil =>
    intro acc d h
    exact absurd rfl h
  | cons x xs ih =>
    intro acc d h
    rw [show runningTotals (x :: xs) acc = (acc + x) :: runningTotals xs (acc + x) from rfl]
    rw [List.getLastD_cons]
    cases hxs : xs with
    | nil =>
      subst hxs
      simp [runningTotals]
    | cons y ys =>
      subst hxs
      rw [ih (acc + x) (acc + x) (by simp)]
      simp [List.sum_cons]
      omega

/-- Running totals are non-decreasing. -/
theorem runningTotals_chain (l : List ℕ) : ∀ acc : ℕ, List.Chain' (· ≤ ·) (runningTotals l acc) := by
  induction l with
  | nil => intro acc; exact List.chain'_nil
  | cons x xs ih =>
    intro acc
    rw [show runningTotals (x :: xs) acc = (acc + x) :: runningTotals xs (acc + x) from rfl]
    rw [List.chain'_cons']
    refine ⟨?_, ih (acc + x)⟩
    intro y hy
    cases hxs : xs with
    | nil =>
      subst hxs
      simp [runningTotals] at hy
    | cons z zs =>
      subst hxs
      rw [show runningTotals (z :: zs) (acc + x)
          = (acc + x + z) :: runningTotals zs (acc + x + z) from rfl] at hy
      simp at hy
      omega

/-- Taking a prefix of the running totals is the running totals of the
prefix. -/
theorem runningTotals_take (l : List ℕ) :
    ∀ (acc k : ℕ), (runningTotals l acc).take k = runningTotals (l.take k) acc := by
  induction l with
  | nil => intro acc k; simp [runningTotals]
  | cons x xs ih =>
    intro acc k
    cases k with
    | zero => rfl
    | succ k =>
      rw [show runningTotals (x :: xs) acc = (acc + x) :: runningTotals xs (acc + x) from rfl]
      rw [List.take_succ_cons, List.take_succ_cons]
      rw [show runningTotals (x :: xs.take k) acc
          = (acc + x) :: runningTotals (xs.take k) (acc + x) from rfl]
      rw [ih (acc + x) k]

/-- Every running total is bounded by the full sum. -/
theorem runningTotals_le_sum (l : List ℕ) :
    ∀ (acc : ℕ), ∀ y ∈ runningTotals l acc, y ≤ acc + l.sum := by
  induction l with
  | nil => intro acc y hy; simp [runningTotals] at hy
  | cons x xs ih =>
    intro acc y hy
    rw [show runningTotals (x :: xs) acc = (acc + x) :: runningTotals xs (acc + x) from rfl] at hy
    rcases List.mem_cons.mp hy with hy | hy
    · subst hy
      rw [List.sum_cons]
      omega
    · have := ih (acc + x) y hy
      rw [List.sum_cons]
      omega

/-- Chunk contributions per page of process_pdf_background: pages with
blank text are skipped; the others are chunked as header, blank line and
text (the header formatting is the parameter hdr, since no claim depends
on its contents); pages with no surviving chunk are skipped; the others
contribute their chunk counts, in page order. -/
def pageChunkCounts (S O : ℕ) (hdr : PageResult → List Char) (pages : List PageResult) :
    List ℕ :=
  pages.filterMap (fun p =>
    if (pyStrip p.text).isEmpty then none
    else
      let cs := chunk_text S O (hdr p ++ nl2 ++ pyStrip p.text)
      if cs.isEmpty then none else some cs.length)

/-- The (status, chunk_count) updates process_pdf_background writes through
_safe_update_doc_status, in order. failAt models an unhandled exception:
some k means it strikes after k contributing pages completed (k = 0 covers
download failures and exceptions before any page; extraction errors are the
error branch); none means no exception. Extraction errors write
(failed, 0). A successful run writes one (processing, running total) per
contributing page and a final (processed, total); a failing run keeps the
updates already written and ends with (failed, count reached so far). -/
def bgTrace (cfg : ExtractCfg) (S O : ℕ) (hdr : PageResult → List Char)
    (failAt : Option ℕ) : List (DocStatus × ℕ) :=
  match bgExtractPages cfg with
  | .error _ => [(.failed, 0)]
  | .ok (pages, _) =>
    match failAt with
    | none =>
      (runningTotals (pageChunkCounts S O hdr pages) 0).map
          (fun c => (DocStatus.processing, c))
        ++ [(.processed, (pageChunkCounts S O hdr pages).sum)]
    | some k =>
      ((runningTotals (pageChunkCounts S O hdr pages) 0).take k).map
          (fun c => (DocStatus.processing, c))
        ++ [(.failed, ((pageChunkCounts S O hdr pages).take k).sum)]

/-- The full observable history of the document: the row is created with
(processing, 0) at upload time, then the worker updates follow. -/
def ingestTrace (cfg : ExtractCfg) (S O : ℕ) (hdr : PageResult → List Char)
    (failAt : Option ℕ) : List (DocStatus × ℕ) :=
  (DocStatus.processing, 0) :: bgTrace cfg S O hdr failAt

/-- Chain helper: starting from (processing, 0), running-total updates
followed by one terminal update with a count at least the last total are
non-decreasing in the count component. -/
theorem traceChain (u : List ℕ) (st : DocStatus) (t : ℕ)
    (hchain : List.Chain' (· ≤ ·) u) (hlast : u.getLastD 0 ≤ t) :
    List.Chain' (fun a b : DocStatus × ℕ => a.2 ≤ b.2)
      ((DocStatus.processing, 0)
        :: (u.map (fun c => (DocStatus.processing, c)) ++ [(st, t)])) := by
  rw [← List.cons_append]
  rw [List.chain'_append]
  refine ⟨?_, List.chain'_singleton _, ?_⟩
  · rw [List.chain'_cons']
    refine ⟨fun y _ => Nat.zero_le _, ?_⟩
    rw [List.chain'_map]
    exact hchain
  · intro x hx y hy
    have hy' : y = (st, t) := by
      have h := hy
      simp at h
      exact h.symm
    subst hy'
    cases hu : u with
    | nil =>
      subst hu
      simp at hx
      rw [← hx]
      exact Nat.zero_le t
    | cons a us =>
      subst hu
      rw [show ((DocStatus.processing, 0)
            :: (a :: us).map (fun c => (DocStatus.processing, c)))
          = (DocStatus.processing, 0) :: (DocStatus.processing, a)
            :: us.map (fun c => (DocStatus.processing, c)) from rfl] at hx
      rw [List.getLast?_cons_cons] at hx
      rw [show ((DocStatus.processing, a) :: us.map (fun c => (DocStatus.processing, c)))
          = ((a :: us).map (fun c => (DocStatus.processing, c))) from rfl] at hx
      rw [List.getLast?_map] at hx
      obtain ⟨v, hv, hxv⟩ := Option.mem_map.mp hx
      rw [Option.mem_def] at hv
      have hveq : (a :: us).getLastD 0 = v := by
        rw [List.getLastD_eq_getLast?, hv]
        rfl
      rw [← hxv]
      show v ≤ t
      omega

/-- Every non-final entry of a trace built from running totals has status
processing. -/
theorem trace_dropLast_processing (l : List ℕ) (st : DocStatus) (t : ℕ) :
    ∀ u ∈ ((DocStatus.processing, 0)
        :: ((runningTotals l 0).map (fun c => (DocStatus.processing, c)) ++ [(st, t)])).dropLast,
      u.1 = DocStatus.processing := by
  intro u hu
  rw [← List.cons_append, List.dropLast_concat] at hu
  rcases List.mem_cons.mp hu with hu | hu
  · rw [hu]
  · obtain ⟨c, -, rfl⟩ := List.mem_map.mp hu
    rfl

/-- The final entry of a trace built from running totals is its terminal
update. -/
theorem trace_getLastD (l : List ℕ) (st : DocStatus) (t : ℕ) :
    ((DocStatus.processing, 0)
        :: ((runningTotals l 0).map (fun c => (DocStatus.processing, c)) ++ [(st, t)])).getLastD
      (DocStatus.processing, 0) = (st, t) := by
  rw [List.getLastD_cons, List.getLastD_concat]

/-- No count of a running-total trace exceeds the terminal count. -/
theorem trace_le (l : List ℕ) (st : DocStatus) :
    ∀ u ∈ ((DocStatus.processing, 0)
        :: ((runningTotals l 0).map (fun c => (DocStatus.processing, c)) ++ [(st, l.sum)])),
      u.2 ≤ l.sum := by
  intro u hu
  rcases List.mem_cons.mp hu with hu | hu
  · rw [hu]
    exact Nat.zero_le _
  · rcases List.mem_append.mp hu with hu | hu
    · obtain ⟨c, hc, rfl⟩ := List.mem_map.mp hu
      simpa using runningTotals_le_sum l 0 c hc
    · have hu' : u = (st, l.sum) := by simpa using hu
      rw [hu']

/-- A running-total trace has non-decreasing counts. -/
theorem trace_chain (l : List ℕ) (st : DocStatus) :
    List.Chain' (fun a b : DocStatus × ℕ => a.2 ≤ b.2)
      ((DocStatus.processing, 0)
        :: ((runningTotals l 0).map (fun c => (DocStatus.processing, c)) ++ [(st, l.sum)])) := by
  refine traceChain _ st _ (runningTotals_chain l 0) ?_
  cases hl : l with
  | nil => simp [runningTotals]
  | cons x xs =>
    subst hl
    rw [runningTotals_getLastD _ 0 0 (by simp)]
    omega

/-- C8: along the observable (status, chunk_count) history of an ingestion
(the (processing, 0) row written at upload followed by the worker updates):
every non-final entry has status processing, so the only status
transitions are processing to processed and processing to failed and both
are terminal; the chunk count is non-decreasing across all updates; no
entry exceeds the terminal count; a run without unhandled exception ends
with (processed, total), i.e. chunk_count holds its final value exactly
when status becomes processed; and a run whose unhandled exception strikes
after k contributing pages ends with (failed, count reached so far). -/
theorem ingestion_state_machine (cfg : ExtractCfg) (S O : ℕ)
    (hdr : PageResult → List Char) (failAt : Option ℕ) :
    (∀ u ∈ (ingestTrace cfg S O hdr failAt).dropLast, u.1 = DocStatus.processing)
    ∧ (((ingestTrace cfg S O hdr failAt).getLastD (DocStatus.processing, 0)).1
          = DocStatus.processed
        ∨ ((ingestTrace cfg S O hdr failAt).getLastD (DocStatus.processing, 0)).1
          = DocStatus.failed)
    ∧ List.Chain' (fun a b : DocStatus × ℕ => a.2 ≤ b.2) (ingestTrace cfg S O hdr failAt)
    ∧ (∀ u ∈ ingestTrace cfg S O hdr failAt,
        u.2 ≤ ((ingestTrace cfg S O hdr failAt).getLastD (DocStatus.processing, 0)).2)
    ∧ (failAt = none → ∀ pages b, bgExtractPages cfg = .ok (pages, b) →
        (ingestTrace cfg S O hdr failAt).getLastD (DocStatus.processing, 0)
          = (DocStatus.processed, (pageChunkCounts S O hdr pages).sum))
    ∧ (∀ k, failAt = some k → ∀ pages b, bgExtractPages cfg = .ok (pages, b) →
        (ingestTrace cfg S O hdr failAt).getLastD (DocStatus.processing, 0)
          = (DocStatus.failed, ((pageChunkCounts S O hdr pages).take k).sum)) := by
  cases hbg : bgExtractPages cfg with
  | error e =>
    have htr : ingestTrace cfg S O hdr failAt
        = [(DocStatus.processing, 0), (DocStatus.failed, 0)] := by
      unfold ingestTrace bgTrace
      rw [hbg]
    rw [htr]
    refine ⟨?_, Or.inr rfl, ?_, ?_, ?_, ?_⟩
    · intro u hu
      have hu' : u = (DocStatus.processing, 0) := by simpa using hu
      rw [hu']
    · rw [List.chain'_cons]
      exact ⟨Nat.le_refl 0, List.chain'_singleton _⟩
    · intro u hu
      rcases List.mem_cons.mp hu with hu | hu
      · rw [hu]
        exact Nat.zero_le _
      · have hu' : u = (DocStatus.failed, 0) := by simpa using hu
        rw [hu']
        exact Nat.zero_le _
    · intro hfa pages b hok
      exact absurd hok (by simp)
    · intro k hk pages b hok
      exact absurd hok (by simp)
  | ok pr =>
    obtain ⟨pages, b⟩ := pr
    cases hfa : failAt with
    | none =>
      have htr : ingestTrace cfg S O hdr (none : Option ℕ) = (DocStatus.processing, 0)
          :: ((runningTotals (pageChunkCounts S O hdr pages) 0).map
                (fun c => (DocStatus.processing, c))
            ++ [(DocStatus.processed, (pageChunkCounts S O hdr pages).sum)]) := by
        unfold ingestTrace bgTrace
        rw [hbg]
      rw [htr]
      refine ⟨trace_dropLast_processing _ _ _, ?_, trace_chain _ _, ?_, ?_, ?_⟩
      · rw [trace_getLastD]
        exact Or.inl rfl
      · intro u hu
        rw [trace_getLastD]
        exact trace_le _ _ u hu
      · rintro - pages' b' hok
        have h2 := Except.ok.inj hok
        injection h2 with hp hb
        subst hp
        rw [trace_getLastD]
      · intro k hk
        exact absurd hk (by simp)
    | some k =>
      have htr : ingestTrace cfg S O hdr (some k) = (DocStatus.processing, 0)
          :: ((runningTotals ((pageChunkCounts S O hdr pages).take k) 0).map
                (fun c => (DocStatus.processing, c))
            ++ [(DocStatus.failed, ((pageChunkCounts S O hdr pages).take k).sum)]) := by
        unfold ingestTrace bgTrace
        rw [hbg]
        show (DocStatus.processing, 0)
            :: (((runningTotals (pageChunkCounts S O hdr pages) 0).take k).map
                  (fun c => (DocStatus.processing, c))
              ++ [(DocStatus.failed, ((pageChunkCounts S O hdr pages).take k).sum)]) = _
        rw [runningTotals_take]
      rw [htr]
      refine ⟨trace_dropLast_processing _ _ _, ?_, trace_chain _ _, ?_, ?_, ?_⟩
      · rw [trace_getLastD]
        exact Or.inr rfl
      · intro u hu
        rw [trace_getLastD]
        exact trace_le _ _ u hu
      · intro hcon
        exact absurd hcon (by simp)
      · intro k' hk' pages' b' hok
        have hkk : k' = k := by
          injection hk' with h
          exact h.symm
        subst hkk
        have h2 := Except.ok.inj hok
        injection h2 with hp hb
        subst hp
        rw [trace_getLastD]

/-- Header formatter for the C8 witness (contents irrelevant). -/
def exHdr : PageResult → List Char := fun _ => ("[PAGE]").toList

/-- Witness for C8 at the concrete configuration, chunk size 3, overlap 1,
with a successful run and with a run failing after 1 contributing page. -/
theorem ingestion_state_machine_witness :
    ((ingestTrace exCfg 3 1 exHdr none).getLastD (DocStatus.processing, 0)).1
        = DocStatus.processed
      ∧ (∀ u ∈ (ingestTrace exCfg 3 1 exHdr (some 1)).dropLast, u.1 = DocStatus.processing)
      ∧ List.Chain' (fun a b : DocStatus × ℕ => a.2 ≤ b.2)
          (ingestTrace exCfg 3 1 exHdr (some 1)) := by
  have h1 := ingestion_state_machine exCfg 3 1 exHdr none
  have h2 := ingestion_state_machine exCfg 3 1 exHdr (some 1)
  refine ⟨?_, h2.1, h2.2.2.1⟩
  rcases h1.2.1 with h | h
  · exact h
  · exfalso
    have hev := h1.2.2.2.2.1 rfl exPagesC10 false (by rfl)
    rw [hev] at h
    exact absurd h (by decide)
